import Mathlib

/-!
Verification of the terminal-block generator for QET projects.

This file gives a shallow embedding, in Lean 4, of the core logic of the
two source modules `qetproject.py` and `terminalblock.py`:

* the packed-metadata decoder `_getElementMetadata` and the encoder used by
  `update_terminals` (the string written into the `function` element
  information),
* the terminal validity test `_isValidTerminal` together with
  `_getListOfElementsByType`,
* the cross-reference computation `_getXRef` / `_getXRefByCoord`,
* the sort-and-renumber pass of `_set_used_terminals`,
* `insert_tb` (removal of a stale terminal block and insertion of a new one),
* the `TerminalBlock` constructor and the bounding-box computation of
  `drawTerminalBlock`.

Python strings are modelled as `List Char` where character-level scanning is
needed, and as `String` for record fields that are only compared or sorted
(Lean's `String` order is the lexicographic order on code points, exactly
Python's comparison).  Python `int` is modelled as `Int`; `int(a / b)` on
integer operands truncates toward zero, which is `Int.tdiv`; Python `a % b`
with a positive literal modulus agrees with `Int.emod`, Lean's `%`.
-/

/-! ### Python string helpers -/

/-- The characters removed by Python `str.strip()` (the ASCII whitespace
characters; exotic Unicode whitespace is not modelled). -/
def pyStripChars : List Char := [' ', '\t', '\n', '\r', '\x0b', '\x0c']

/-- Python `str.strip()`: remove leading and trailing whitespace. -/
def pyStrip (s : List Char) : List Char :=
  ((s.dropWhile (fun c => c ∈ pyStripChars)).reverse.dropWhile
    (fun c => c ∈ pyStripChars)).reverse

/-- Python `str.split(sep)` for a single-character separator: split at every
occurrence of `sep`; the result always has one more entry than the number of
separators, and entries may be empty. -/
def pySplit (sep : Char) : List Char → List (List Char)
  | [] => [[]]
  | c :: cs =>
    if c = sep then [] :: pySplit sep cs
    else
      match pySplit sep cs with
      | [] => [[c]]
      | h :: t => (c :: h) :: t

/-! ### The packed metadata encoding (`_getElementMetadata`, lines 171-216,
and the `function` string written by `update_terminals`, lines 425-430) -/

/-- A Python value that is either a string or an int: `_getElementMetadata`
returns the string captured by a regex group, or an `int` default (`0` for
`num_reserve`, `QET_BLOCK_TERMINAL_SIZE = 30` for `size`) when the tag is
absent. -/
inductive MetaVal where
  | str (s : List Char)
  | int (n : Nat)
deriving DecidableEq, Repr

/-- Attempt to match the regex `%X([^%]*)(%|$)` (for a tag letter `X`) at the
head of the string: the literal `'%'`, the tag letter, then the maximal run of
non-`'%'` characters is the captured group (the following `(%|$)` always
succeeds after a maximal run). -/
def starHere (c : Char) : List Char → Option (List Char)
  | a :: d :: rest =>
    if a = '%' ∧ d = c then some (rest.takeWhile (fun x => x ≠ '%')) else none
  | _ => none

/-- Python `re.search` for the pattern `%X([^%]*)(%|$)`: return the group of
the leftmost match. -/
def searchStar (c : Char) : List Char → Option (List Char)
  | [] => none
  | a :: s =>
    match starHere c (a :: s) with
    | some g => some g
    | none => searchStar c (s : List Char)

/-- Attempt to match the regex `%X(\d+)(%|$)` at the head of the string: the
literal `'%'`, the tag letter, then a non-empty maximal digit run which must
be followed by `'%'` or the end of the string (backtracking to a shorter
digit run cannot help, because a shorter run is followed by a digit). -/
def numHere (c : Char) : List Char → Option (List Char)
  | a :: d :: rest =>
    if a = '%' ∧ d = c then
      let ds := rest.takeWhile Char.isDigit
      if ds = [] then none
      else if rest.drop ds.length = [] ∨ (rest.drop ds.length).head? = some '%'
        then some ds else none
    else none
  | _ => none

/-- Python `re.search` for the pattern `%X(\d+)(%|$)`: return the group of the
leftmost match. -/
def searchNum (c : Char) : List Char → Option (List Char)
  | [] => none
  | a :: s =>
    match numHere c (a :: s) with
    | some g => some g
    | none => searchNum c (s : List Char)

/-- The record produced by `_getElementMetadata` (lines 171-216). -/
structure Metadata where
  terminal_pos : List Char
  terminal_type : List Char
  hose : List Char
  conductor : List Char
  bridge : List Char
  num_reserve : MetaVal
  reserve_positions : List Char
  size : MetaVal
deriving DecidableEq, Repr

/-- `QETProject.QET_BLOCK_TERMINAL_SIZE` (line 54). -/
def QET_BLOCK_TERMINAL_SIZE : Nat := 30

/-- `_getElementMetadata` (lines 186-216), applied to the `function` string:
each field comes from a `re.search` for its tag; `terminal_pos` defaults to
the empty string, `terminal_type` to `STANDARD` when empty or absent,
`num_reserve` to the int `0`, `size` to the int `30`. -/
def getElementMetadata (meta : List Char) : Metadata where
  terminal_pos := (searchNum 'p' meta).getD []
  terminal_type :=
    match searchStar 't' meta with
    | some g => if g = [] then "STANDARD".data else g
    | none => "STANDARD".data
  hose := (searchStar 'h' meta).getD []
  conductor := (searchStar 'n' meta).getD []
  bridge := (searchStar 'b' meta).getD []
  num_reserve :=
    match searchNum 'r' meta with
    | some g => MetaVal.str g
    | none => MetaVal.int 0
  reserve_positions := (searchStar 'z' meta).getD []
  size :=
    match searchNum 's' meta with
    | some g => MetaVal.str g
    | none => MetaVal.int QET_BLOCK_TERMINAL_SIZE

/-- The `function` string written by `update_terminals` (lines 425-430):
`'%p{pos}%t{type}%h{hose}%n{conductor}%b{bridge}%'`. -/
def updateTerminalsValue (pos ttype hose conductor bridge : List Char) :
    List Char :=
  ['%', 'p'] ++ pos ++ ['%', 't'] ++ ttype ++ ['%', 'h'] ++ hose ++
    ['%', 'n'] ++ conductor ++ ['%', 'b'] ++ bridge ++ ['%']

/-! ### Terminal validity (`_isValidTerminal`, lines 219-231, and
`_getListOfElementsByType`, lines 122-137) -/

/-- Python `re.search` with the pattern `'^(.+):(.+)$'` on a stripped string:
since the pattern is anchored at both ends and `.` matches every character
except a newline, a stripped string matches exactly when it contains no
newline and has a `':'` that is neither its first nor its last character
(there is at least one character on each side of some colon). -/
def matchesTerminalNamePattern (s : List Char) : Bool :=
  !(s.contains '\n') && ((s.drop 1).dropLast.contains ':')

/-- Matching of one regex character against one subject character, for
patterns made of literal characters and the metacharacter `'.'` (which in
Python matches any character except a newline).  Collection element names
containing any other regex metacharacter are outside this model; the theorems
about `_isValidTerminal` carry that restriction as a hypothesis. -/
def charMatchDot (p c : Char) : Bool :=
  if p = '.' then c ≠ '\n' else p = c

/-- The regex metacharacters other than `'.'`: names containing one of these
are not covered by `charMatchDot`. -/
def regexSpecialChars : List Char :=
  ['*', '+', '?', '(', ')', '[', ']', '\\', '|', '{', '}', '^', '$']

/-- Match an end-anchored pattern `el + '$'` at the head of the subject:
every pattern character must match, and the remainder of the subject must be
empty or a single final newline (Python `$` also matches just before a
trailing newline). -/
def matchEndAt : List Char → List Char → Bool
  | [], s => decide (s = [] ∨ s = ['\n'])
  | _ :: _, [] => false
  | p :: ps, c :: cs => charMatchDot p c && matchEndAt ps cs

/-- Python `re.search(el + '$', s)` for a pattern `el` of literal characters
and `'.'`: try `matchEndAt` at every start position. -/
def reSearchEnd (pat : List Char) : List Char → Bool
  | [] => matchEndAt pat []
  | c :: s => matchEndAt pat (c :: s) || reSearchEnd pat s

/-- A member of the embedded collection, reduced to what
`_getListOfElementsByType` reads: the `name` attribute of the `element` node
and the `link_type` attribute of its first child (`element[0]`, the
`definition` node), when present. -/
structure CollectionElement where
  name : List Char
  link_type : Option (List Char)
deriving DecidableEq, Repr

/-- `_getListOfElementsByType` (lines 122-137): the names of the collection
elements whose definition has the requested `link_type`.  Python builds
`list(set(ret))`, which deduplicates in unspecified order; only membership in
the result is ever used, so deduplication keeping first occurrences is
faithful. -/
def getListOfElementsByType (element_type : List Char)
    (coll : List CollectionElement) : List (List Char) :=
  (((coll.filter (fun e => e.link_type = some element_type)).map
    (fun e => e.name))).dedup

/-- `_isValidTerminal` (lines 219-231): the stripped element name must match
`'^(.+):(.+)$'`, the element must carry a `type` attribute, and some name in
`terminalElements` must match at the end of the `type` value as a regex
(`re.search(el + '$', type)`). -/
def isValidTerminal (terminalElements : List (List Char))
    (elementName : List Char) (typeAttr : Option (List Char)) : Bool :=
  matchesTerminalNamePattern (pyStrip elementName) &&
    (match typeAttr with
     | none => false
     | some ty => terminalElements.any (fun el => reSearchEnd el ty))

/-- The inclusion condition exactly as the claim words it ("that type value
ends with the name of some collection element whose definition has link_type
equal to terminal"): a literal suffix test instead of the regex match the
code performs. -/
def claimIncludedTerminal (coll : List CollectionElement)
    (elementName : List Char) (typeAttr : Option (List Char)) : Bool :=
  matchesTerminalNamePattern (pyStrip elementName) &&
    (match typeAttr with
     | none => false
     | some ty =>
       (getListOfElementsByType "terminal".data coll).any
         (fun el => el.isSuffixOf ty))

/-! ### Label splitting in `_set_used_terminals` (lines 368-369) -/

/-- `terminalName.split(':')[0]` — `pySplit` never returns an empty list, so
Python's index `[0]` always succeeds. -/
def blockNameOfLabel (s : List Char) : List Char :=
  (pySplit ':' s).headD []

/-- `terminalName.split(':')[1]` — the segment between the first and the
second colon; Python raises `IndexError` when the label has no colon, hence
the `Option`. -/
def terminalNameOfLabel (s : List Char) : Option (List Char) :=
  (pySplit ':' s).get? 1

/-! ### The terminal record and the sort-and-renumber pass of
`_set_used_terminals` (lines 383-394) -/

/-- The record stored for each used terminal (see the class docstring and
lines 367-380).  The position field has type `π` because the renumbering pass
overwrites the string position coming from the metadata with an `int`. -/
structure TerminalRec (π : Type) where
  uuid : String
  block_name : String
  terminal_name : String
  terminal_xref : String
  cable : String
  terminal_pos : π
  terminal_type : String
  hose : String
  conductor : String
  bridge : String
  num_reserve : MetaVal
  reserve_positions : String
  size : MetaVal
deriving DecidableEq, Repr

/-- The mutation `t['terminal_pos'] = i` of the renumbering loop. -/
def setPos (t : TerminalRec String) (i : Nat) : TerminalRec Nat where
  uuid := t.uuid
  block_name := t.block_name
  terminal_name := t.terminal_name
  terminal_xref := t.terminal_xref
  cable := t.cable
  terminal_pos := i
  terminal_type := t.terminal_type
  hose := t.hose
  conductor := t.conductor
  bridge := t.bridge
  num_reserve := t.num_reserve
  reserve_positions := t.reserve_positions
  size := t.size

/-- Lines 384-385: `ret.sort(key=itemgetter('terminal_pos'))` followed by
`ret.sort(key=itemgetter('block_name'), reverse=True)`.  Python's sort is
stable, and any two stable sorts with respect to the same total preorder
produce the same list, so Mathlib's stable `insertionSort` is a faithful
model.  `reverse=True` keeps stability and sorts by the reversed key order.
Lean's `String` order is Python's (lexicographic on code points). -/
def sortUsedTerminals (l : List (TerminalRec String)) : List (TerminalRec String) :=
  List.insertionSort (fun a b => b.block_name ≤ a.block_name)
    (List.insertionSort (fun a b => a.terminal_pos ≤ b.terminal_pos) l)

/-- Lines 388-394: renumber `terminal_pos` from 1, restarting at 1 whenever
the block name differs from the previous record's block name (`memo_tb`
starts as the empty string, `i` as 1). -/
def renumberTerminals : String → Nat → List (TerminalRec String) → List (TerminalRec Nat)
  | _, _, [] => []
  | memo, i, t :: ts =>
    if t.block_name ≠ memo then
      setPos t 1 :: renumberTerminals t.block_name (1 + 1) ts
    else
      setPos t i :: renumberTerminals t.block_name (i + 1) ts

/-- The sort-and-renumber tail of `_set_used_terminals` (lines 383-394),
applied to the extracted list of records (`ret`). -/
def setUsedTerminalsSortRenum (l : List (TerminalRec String)) : List (TerminalRec Nat) :=
  renumberTerminals "" 1 (sortUsedTerminals l)

/-- The records whose block equals `m` form a (possibly empty) leading
segment of `l`, and no later record has block `m`. -/
def FrontRun (m : String) (l : List (TerminalRec String)) : Prop :=
  ∃ p q, l = p ++ q ∧ (∀ u ∈ p, u.block_name = m) ∧ (∀ u ∈ q, u.block_name ≠ m)

/-! ### Cross references (`_getXRef`, lines 251-293, and `_getXRefByCoord`,
lines 309-333) -/

/-- Python decimal digit characters, as written by `str(...)`. -/
def digitChar (d : Nat) : Char :=
  if d = 0 then '0' else if d = 1 then '1' else if d = 2 then '2'
  else if d = 3 then '3' else if d = 4 then '4' else if d = 5 then '5'
  else if d = 6 then '6' else if d = 7 then '7' else if d = 8 then '8'
  else '9'

/-- Decimal digits of `n` (most significant first) in front of `acc`. -/
def natToCharsAux : Nat → List Char → List Char
  | n, acc =>
    if n < 10 then digitChar n :: acc
    else natToCharsAux (n / 10) (digitChar (n % 10) :: acc)
termination_by n _ => n
decreasing_by simp_wf; omega

/-- Python `str(n)` for a natural number. -/
def natToChars (n : Nat) : List Char := natToCharsAux n []

/-- Python `str(i)` for an integer. -/
def intToChars (i : Int) : List Char :=
  if i < 0 then '-' :: natToChars i.natAbs else natToChars i.toNat

/-- Python `s.replace(pat, rep)`: replace every non-overlapping occurrence of
`pat`, scanning left to right; the replacement text is not rescanned.  (The
degenerate case of an empty `pat`, which Python treats specially, never
arises here: every pattern used is a literal tag.) -/
def pyReplace (pat rep : List Char) : List Char → List Char
  | [] => []
  | c :: s =>
    if h : pat ≠ [] ∧ pat.isPrefixOf (c :: s) = true then
      rep ++ pyReplace pat rep ((c :: s).drop pat.length)
    else c :: pyReplace pat rep s
termination_by l => l.length
decreasing_by
  · have := List.length_pos.mpr h.1
    simp [List.length_drop]
    omega
  · simp

/-- Python substring membership `pat in s` (contiguous substring). -/
def pyContains (pat : List Char) : List Char → Bool
  | [] => pat.isEmpty
  | c :: s => pat.isPrefixOf (c :: s) || pyContains pat s

/-- `QETProject.QET_COL_ROW_SIZE` (line 53). -/
def QET_COL_ROW_SIZE : Int := 25

/-- Python list indexing `l[i]`: a negative index counts from the end, and an
index out of `[-len l, len l)` raises `IndexError` (modelled as `none`). -/
def pyIndex (l : List α) (i : Int) : Option α :=
  if 0 ≤ i then l[i.toNat]?
  else if 0 ≤ i + l.length then l[(i + l.length).toNat]?
  else none

/-- The attributes of a `diagram` node that the cross-reference code reads.
`machine` and `locmach` stand for the values substituted for `%M` and `%LM`
(the results of `_getDiagramAttribute`). -/
structure DiagramAttrs where
  cols : Int
  colsize : Int
  rows : Int
  rowsize : Int
  order : Int
  folio : List Char
  machine : List Char
  locmach : List Char
deriving DecidableEq, Repr

/-- `rows_letters = [chr(x + 65) for x in range(rows)]` (line 324). -/
def rowsLetters (rows : Int) : List Char :=
  (List.range rows.toNat).map (fun x => Char.ofNat (x + 65))

/-- `_getXRefByCoord` (lines 309-333) for integer coordinates: the row letter
is `rows_letters[int((y - 25) / row_size) - 1 + 1]` (Python `int()` of the
float quotient truncates toward zero, hence `Int.tdiv`; Python list indexing
allows negative indices), and the column is `str(int((x - 25) / col_size) + 1)`.
A zero `rowsize` or `colsize` would raise `ZeroDivisionError` in Python; the
theorems below assume positive sizes. -/
def getXRefByCoord (d : DiagramAttrs) (x y : Int) : Option (Char × List Char) :=
  (pyIndex (rowsLetters d.rows)
      (Int.tdiv (y - QET_COL_ROW_SIZE) d.rowsize - 1 + 1)).map
    (fun letter =>
      (letter, intToChars (Int.tdiv (x - QET_COL_ROW_SIZE) d.colsize + 1)))

/-- One substitution step of `_getXRef`: `if pat in ret: ret = ret.replace(pat, rep)`. -/
def substTag (pat rep s : List Char) : List Char :=
  if pyContains pat s then pyReplace pat rep s else s

/-- The `%F` branch of `_getXRef` (lines 275-283): when `%F` occurs, the
diagram's `folio` label is taken, its `%id`, `%total` and `%autonum` tags are
substituted in this order, and the result replaces `%F`. -/
def substFolioF (diagramPage totalPagesChars folio s : List Char) : List Char :=
  if pyContains "%F".data s then
    pyReplace "%F".data
      (substTag "%autonum".data diagramPage
        (substTag "%total".data totalPagesChars
          (substTag "%id".data diagramPage folio))) s
  else s

/-- `_getXRef` (lines 251-293) with zero offsets: start from the project's
folio reference format, compute the row/column from the coordinates, and
substitute the `%f`, `%F` (with nested `%id`, `%total`, `%autonum`), `%M`,
`%LM`, `%l` and `%c` tags in this order, each only when present. -/
def getXRef (folioRef : List Char) (pageOffset totalPages : Int)
    (d : DiagramAttrs) (x y : Int) : Option (List Char) :=
  (getXRefByCoord d x y).map (fun rc =>
    let diagramPage := intToChars (d.order + pageOffset)
    substTag "%c".data rc.snd
      (substTag "%l".data [rc.fst]
        (substTag "%LM".data d.locmach
          (substTag "%M".data d.machine
            (substFolioF diagramPage (intToChars totalPages) d.folio
              (substTag "%f".data diagramPage folioRef))))))

/-- The default folio reference format `'%f-%l%c'`. -/
def defaultFolioRef : List Char := "%f-%l%c".data

/-- The cross reference exactly as the claim describes it for the default
format: page (order plus offset), a dash, the row letter
`chr(65 + floor((y - 25) / rowsize))` and the column
`floor((x - 25) / colsize) + 1` (`Int.fdiv` is floor division). -/
def claimXRefDefault (pageOffset : Int) (d : DiagramAttrs) (x y : Int) :
    List Char :=
  intToChars (d.order + pageOffset) ++
    '-' :: Char.ofNat ((65 + Int.fdiv (y - 25) d.rowsize).toNat) ::
      intToChars (Int.fdiv (x - 25) d.colsize + 1)

/-! ### `insert_tb` (lines 449-465) -/

/-- A child of the collection's `category` node, reduced to its `name`
attribute (the only attribute `insert_tb` reads).  Nested sub-categories,
whose descendants `father.iter` would also visit but `father.remove` could
not remove, are outside this flat model. -/
structure XmlElement where
  name : List Char
deriving DecidableEq, Repr

/-- `'TB_' + name + '.elmt'` (line 456). -/
def insertTbTargetName (name : List Char) : List Char :=
  "TB_".data ++ name ++ ".elmt".data

/-- CPython iteration over a list that is mutated by `remove` during the
loop: the iterator advances by index, so removing the current element shifts
the remaining elements left and the element that directly followed the
removed one is never examined.  `removeLoop p i L` continues the loop at
cursor `i`. -/
def removeLoop (p : α → Bool) : Nat → List α → List α
  | i, L =>
    if h : i < L.length then
      if p (L.get ⟨i, h⟩) then removeLoop p (i + 1) (L.eraseIdx i)
      else removeLoop p (i + 1) L
    else L
termination_by i L => L.length - i
decreasing_by
  · simp [List.length_eraseIdx, h]
    omega
  · omega

/-- `insert_tb` (lines 449-465) acting on the list of children of the
collection's `category` node: run the remove loop for elements named
`'TB_' + name + '.elmt'`, then insert the new node at position 0. -/
def insert_tb (name : List Char) (tb_node : XmlElement)
    (category : List XmlElement) : List XmlElement :=
  tb_node :: removeLoop (fun e => e.name == insertTbTargetName name) 0 category

/-! ### `TerminalBlock` (terminalblock.py) -/

/-- The size settings read in the `TerminalBlock` initializer (lines 53-69).
The Python default branch `[int(settings[...]), default][settings == {}]`
evaluates both alternatives eagerly and therefore raises `KeyError` for the
empty dict, so a usable settings dict always carries every key; the model
takes the already-converted integers. -/
structure TBSettings where
  HEAD_HEIGHT : Int
  HEAD_WIDTH : Int
  UNION_HEIGHT : Int
  UNION_WIDTH : Int
  TERMINAL_HEIGHT : Int
  TERMINAL_WIDTH : Int
  CONDUCTOR_LENGTH : Int
  HOSE_CONDUCTOR_START : Int
  HOSE_LENGTH : Int
  HOSE_CONDUCTOR_END : Int
  HEAD_FONT : Int
  TERMINAL_FONT : Int
  XREF_FONT : Int
  CONDUCTOR_FONT : Int
  SPLIT_SIZE : Int
deriving DecidableEq, Repr

/-- The state built by `TerminalBlock.__init__` (lines 40-69). -/
structure TerminalBlockData where
  tb_block_name : String
  terminals : List (TerminalRec Nat)
  num_terminals : Nat
  tb_id : String
  settings : TBSettings
deriving DecidableEq, Repr

/-- `TerminalBlock.__init__` (lines 40-69): stores the collection, its
length, and `self.terminals[0]['block_name']` as `tb_id` — an access that
raises `IndexError` on an empty collection, modelled as `none`. -/
def TerminalBlock_init (tb_block_name : String)
    (collec : List (TerminalRec Nat)) (settings : TBSettings) :
    Option TerminalBlockData :=
  match collec.head? with
  | none => none
  | some t0 =>
    some { tb_block_name := tb_block_name, terminals := collec,
           num_terminals := collec.length, tb_id := t0.block_name,
           settings := settings }

/-- Python `max(l)`: raises `ValueError` on an empty sequence, modelled as
`none`. -/
def pyMax (l : List Nat) : Option Nat :=
  match l with
  | [] => none
  | a :: t => some (t.foldl max a)

/-- `max([len(x['cable']) for x in self.terminals])` (lines 188-189 of
`drawTerminalBlock`; the same expression is used for both
`max_cond_name_length` and `max_hose_cond_name_length`). -/
def maxCondNameLength (terminals : List (TerminalRec Nat)) : Option Nat :=
  pyMax (terminals.map (fun x => x.cable.length))

/-- The rounding loop `while (total % 10): total += 1` of `drawTerminalBlock`
(lines 137 and 144): increment until a multiple of 10 is reached.  Lean's
`%` on `Int` is `emod`, which agrees with Python `%` for the positive
modulus 10. -/
def roundUpTenth (t : Int) : Int :=
  if t % 10 = 0 then t else roundUpTenth (t + 1)
termination_by ((10 - t % 10) % 10).toNat
decreasing_by omega

/-- `total_width` of `drawTerminalBlock` (lines 133-137), the value of the
`width` attribute of the generated `definition` node (line 153). -/
def drawTotalWidth (s : TBSettings) (num_terminals : Nat) : Int :=
  roundUpTenth (s.HEAD_WIDTH + s.UNION_WIDTH +
    (num_terminals : Int) * s.TERMINAL_WIDTH + 1)

/-- `total_height` of `drawTerminalBlock` (lines 138-144), the value of the
`height` attribute of the generated `definition` node (line 152). -/
def drawTotalHeight (s : TBSettings) : Int :=
  roundUpTenth (s.CONDUCTOR_LENGTH + s.TERMINAL_HEIGHT +
    s.HOSE_CONDUCTOR_START + s.HOSE_LENGTH + s.HOSE_CONDUCTOR_END + 1)

/-! ### Sample data used by concrete witnesses -/

/-- A sample renumbered terminal record (test fixture for witnesses). -/
def sampleTerminalNat (bn : String) (pos : Nat) : TerminalRec Nat where
  uuid := "u"
  block_name := bn
  terminal_name := "1"
  terminal_xref := "1-A1"
  cable := "c"
  terminal_pos := pos
  terminal_type := "STANDARD"
  hose := ""
  conductor := ""
  bridge := ""
  num_reserve := MetaVal.int 0
  reserve_positions := ""
  size := MetaVal.int 30

/-- A sample extracted terminal record (test fixture for witnesses). -/
def sampleTerminalStr (bn pos : String) : TerminalRec String where
  uuid := "u"
  block_name := bn
  terminal_name := "1"
  terminal_xref := "1-A1"
  cable := "c"
  terminal_pos := pos
  terminal_type := "STANDARD"
  hose := ""
  conductor := ""
  bridge := ""
  num_reserve := MetaVal.int 0
  reserve_positions := ""
  size := MetaVal.int 30

/-- The default size settings of the `TerminalBlock` initializer (the
constants of lines 53-69), as a test fixture for witnesses. -/
def sampleSettings : TBSettings where
  HEAD_HEIGHT := 120
  HEAD_WIDTH := 44
  UNION_HEIGHT := 70
  UNION_WIDTH := 6
  TERMINAL_HEIGHT := 160
  TERMINAL_WIDTH := 20
  CONDUCTOR_LENGTH := 70
  HOSE_CONDUCTOR_START := 70
  HOSE_LENGTH := 80
  HOSE_CONDUCTOR_END := 70
  HEAD_FONT := 13
  TERMINAL_FONT := 9
  XREF_FONT := 6
  CONDUCTOR_FONT := 6
  SPLIT_SIZE := 30

/-! ### Lemmas: takeWhile helpers -/

theorem takeWhile_append_stop {p : Char → Bool} (b : Char) (t : List Char)
    (hb : p b = false) :
    ∀ (a : List Char), (∀ x ∈ a, p x = true) → (a ++ b :: t).takeWhile p = a := by
  intro a
  induction a with
  | nil => intro _; simp [List.takeWhile_cons, hb]
  | cons x xs ih =>
    intro h
    have hx : p x = true := h x (by simp)
    simp only [List.cons_append, List.takeWhile_cons, hx, if_true]
    rw [ih (fun y hy => h y (by simp [hy]))]

theorem ne_pct_of_isDigit {x : Char} (h : x.isDigit = true) : x ≠ '%' := by
  intro e
  subst e
  exact absurd h (by decide)

/-! ### Lemmas: leftmost regex search for the metadata tags -/

theorem starHere_none_head {c a : Char} (s : List Char) (h : a ≠ '%') :
    starHere c (a :: s) = none := by
  cases s <;> simp [starHere, h]

theorem searchStar_cons_ne {c a : Char} (s : List Char) (h : a ≠ '%') :
    searchStar c (a :: s) = searchStar c s := by
  simp only [searchStar, starHere_none_head s h]

theorem searchStar_append_nopct {c : Char} (s : List Char) :
    ∀ (a : List Char), (∀ x ∈ a, x ≠ '%') →
      searchStar c (a ++ s) = searchStar c s := by
  intro a
  induction a with
  | nil => intro _; rfl
  | cons x xs ih =>
    intro h
    rw [List.cons_append, searchStar_cons_ne _ (h x (by simp))]
    exact ih (fun y hy => h y (by simp [hy]))

theorem searchStar_pct_skip {c d : Char} (s : List Char) (h1 : d ≠ c)
    (h2 : d ≠ '%') : searchStar c ('%' :: d :: s) = searchStar c s := by
  have e1 : starHere c ('%' :: d :: s) = none := by simp [starHere, h1]
  calc searchStar c ('%' :: d :: s) = searchStar c (d :: s) := by
        simp only [searchStar, e1]
    _ = searchStar c s := searchStar_cons_ne s h2

theorem searchStar_found (c : Char) (s : List Char) :
    searchStar c ('%' :: c :: s) = some (s.takeWhile (fun x => x ≠ '%')) := by
  simp [searchStar, starHere]

theorem searchStar_pct_nil (c : Char) : searchStar c ['%'] = none := rfl

theorem numHere_none_head {c a : Char} (s : List Char) (h : a ≠ '%') :
    numHere c (a :: s) = none := by
  cases s <;> simp [numHere, h]

theorem searchNum_cons_ne {c a : Char} (s : List Char) (h : a ≠ '%') :
    searchNum c (a :: s) = searchNum c s := by
  simp only [searchNum, numHere_none_head s h]

theorem searchNum_append_nopct {c : Char} (s : List Char) :
    ∀ (a : List Char), (∀ x ∈ a, x ≠ '%') →
      searchNum c (a ++ s) = searchNum c s := by
  intro a
  induction a with
  | nil => intro _; rfl
  | cons x xs ih =>
    intro h
    rw [List.cons_append, searchNum_cons_ne _ (h x (by simp))]
    exact ih (fun y hy => h y (by simp [hy]))

theorem searchNum_pct_skip {c d : Char} (s : List Char) (h1 : d ≠ c)
    (h2 : d ≠ '%') : searchNum c ('%' :: d :: s) = searchNum c s := by
  have e1 : numHere c ('%' :: d :: s) = none := by simp [numHere, h1]
  calc searchNum c ('%' :: d :: s) = searchNum c (d :: s) := by
        simp only [searchNum, e1]
    _ = searchNum c s := searchNum_cons_ne s h2

theorem searchNum_found {c : Char} {ds : List Char} (rest : List Char)
    (h1 : ds ≠ []) (h2 : ∀ x ∈ ds, x.isDigit = true) :
    searchNum c ('%' :: c :: (ds ++ '%' :: rest)) = some ds := by
  have htw : (ds ++ '%' :: rest).takeWhile Char.isDigit = ds :=
    takeWhile_append_stop '%' rest (by decide) ds h2
  have hdr : (ds ++ '%' :: rest).drop ds.length = '%' :: rest :=
    List.drop_left ds ('%' :: rest)
  simp [searchNum, numHere, htw, hdr, h1]

theorem searchNum_pct_nil (c : Char) : searchNum c ['%'] = none := rfl

theorem updateTerminalsValue_eq (pos ttype hose conductor bridge : List Char) :
    updateTerminalsValue pos ttype hose conductor bridge =
      '%' :: 'p' :: (pos ++ '%' :: 't' :: (ttype ++ '%' :: 'h' :: (hose ++
        '%' :: 'n' :: (conductor ++ '%' :: 'b' :: (bridge ++ ['%']))))) := by
  simp [updateTerminalsValue]

/-! ### Decoding the string written by `update_terminals` -/

theorem update_searchNum_p (pos ttype hose conductor bridge : List Char)
    (hp1 : pos ≠ []) (hp2 : ∀ x ∈ pos, x.isDigit = true) :
    searchNum 'p' (updateTerminalsValue pos ttype hose conductor bridge) =
      some pos := by
  rw [updateTerminalsValue_eq]
  exact searchNum_found _ hp1 hp2

theorem update_searchStar_t (pos ttype hose conductor bridge : List Char)
    (hp : ∀ x ∈ pos, x ≠ '%') (ht : ∀ x ∈ ttype, x ≠ '%') :
    searchStar 't' (updateTerminalsValue pos ttype hose conductor bridge) =
      some ttype := by
  rw [updateTerminalsValue_eq,
    searchStar_pct_skip _ (by decide) (by decide),
    searchStar_append_nopct _ pos hp,
    searchStar_found,
    takeWhile_append_stop '%' _ (by decide) ttype (fun x hx => by
      simp [ht x hx])]

theorem update_searchStar_h (pos ttype hose conductor bridge : List Char)
    (hp : ∀ x ∈ pos, x ≠ '%') (ht : ∀ x ∈ ttype, x ≠ '%')
    (hh : ∀ x ∈ hose, x ≠ '%') :
    searchStar 'h' (updateTerminalsValue pos ttype hose conductor bridge) =
      some hose := by
  rw [updateTerminalsValue_eq,
    searchStar_pct_skip _ (by decide) (by decide),
    searchStar_append_nopct _ pos hp,
    searchStar_pct_skip _ (by decide) (by decide),
    searchStar_append_nopct _ ttype ht,
    searchStar_found,
    takeWhile_append_stop '%' _ (by decide) hose (fun x hx => by
      simp [hh x hx])]

theorem update_searchStar_n (pos ttype hose conductor bridge : List Char)
    (hp : ∀ x ∈ pos, x ≠ '%') (ht : ∀ x ∈ ttype, x ≠ '%')
    (hh : ∀ x ∈ hose, x ≠ '%') (hn : ∀ x ∈ conductor, x ≠ '%') :
    searchStar 'n' (updateTerminalsValue pos ttype hose conductor bridge) =
      some conductor := by
  rw [updateTerminalsValue_eq,
    searchStar_pct_skip _ (by decide) (by decide),
    searchStar_append_nopct _ pos hp,
    searchStar_pct_skip _ (by decide) (by decide),
    searchStar_append_nopct _ ttype ht,
    searchStar_pct_skip _ (by decide) (by decide),
    searchStar_append_nopct _ hose hh,
    searchStar_found,
    takeWhile_append_stop '%' _ (by decide) conductor (fun x hx => by
      simp [hn x hx])]

theorem update_searchStar_b (pos ttype hose conductor bridge : List Char)
    (hp : ∀ x ∈ pos, x ≠ '%') (ht : ∀ x ∈ ttype, x ≠ '%')
    (hh : ∀ x ∈ hose, x ≠ '%') (hn : ∀ x ∈ conductor, x ≠ '%')
    (hb : ∀ x ∈ bridge, x ≠ '%') :
    searchStar 'b' (updateTerminalsValue pos ttype hose conductor bridge) =
      some bridge := by
  rw [updateTerminalsValue_eq,
    searchStar_pct_skip _ (by decide) (by decide),
    searchStar_append_nopct _ pos hp,
    searchStar_pct_skip _ (by decide) (by decide),
    searchStar_append_nopct _ ttype ht,
    searchStar_pct_skip _ (by decide) (by decide),
    searchStar_append_nopct _ hose hh,
    searchStar_pct_skip _ (by decide) (by decide),
    searchStar_append_nopct _ conductor hn,
    searchStar_found,
    takeWhile_append_stop '%' _ (by decide) bridge (fun x hx => by
      simp [hb x hx])]

theorem update_searchNum_not_tag (c : Char)
    (pos ttype hose conductor bridge : List Char)
    (hcp : ('p' : Char) ≠ c) (hct : ('t' : Char) ≠ c) (hch : ('h' : Char) ≠ c)
    (hcn : ('n' : Char) ≠ c) (hcb : ('b' : Char) ≠ c)
    (hp : ∀ x ∈ pos, x ≠ '%') (ht : ∀ x ∈ ttype, x ≠ '%')
    (hh : ∀ x ∈ hose, x ≠ '%') (hn : ∀ x ∈ conductor, x ≠ '%')
    (hb : ∀ x ∈ bridge, x ≠ '%') :
    searchNum c (updateTerminalsValue pos ttype hose conductor bridge) =
      none := by
  rw [updateTerminalsValue_eq,
    searchNum_pct_skip _ hcp (by decide),
    searchNum_append_nopct _ pos hp,
    searchNum_pct_skip _ hct (by decide),
    searchNum_append_nopct _ ttype ht,
    searchNum_pct_skip _ hch (by decide),
    searchNum_append_nopct _ hose hh,
    searchNum_pct_skip _ hcn (by decide),
    searchNum_append_nopct _ conductor hn,
    searchNum_pct_skip _ hcb (by decide),
    searchNum_append_nopct _ bridge hb,
    searchNum_pct_nil]

theorem update_searchStar_not_tag (c : Char)
    (pos ttype hose conductor bridge : List Char)
    (hcp : ('p' : Char) ≠ c) (hct : ('t' : Char) ≠ c) (hch : ('h' : Char) ≠ c)
    (hcn : ('n' : Char) ≠ c) (hcb : ('b' : Char) ≠ c)
    (hp : ∀ x ∈ pos, x ≠ '%') (ht : ∀ x ∈ ttype, x ≠ '%')
    (hh : ∀ x ∈ hose, x ≠ '%') (hn : ∀ x ∈ conductor, x ≠ '%')
    (hb : ∀ x ∈ bridge, x ≠ '%') :
    searchStar c (updateTerminalsValue pos ttype hose conductor bridge) =
      none := by
  rw [updateTerminalsValue_eq,
    searchStar_pct_skip _ hcp (by decide),
    searchStar_append_nopct _ pos hp,
    searchStar_pct_skip _ hct (by decide),
    searchStar_append_nopct _ ttype ht,
    searchStar_pct_skip _ hch (by decide),
    searchStar_append_nopct _ hose hh,
    searchStar_pct_skip _ hcn (by decide),
    searchStar_append_nopct _ conductor hn,
    searchStar_pct_skip _ hcb (by decide),
    searchStar_append_nopct _ bridge hb,
    searchStar_pct_nil]

/-- C4: round-trip of the packed metadata encoding — decoding (as in
`_getElementMetadata`) the `function` string written by `update_terminals`
for a record whose `terminal_pos` is a non-empty digit string, whose
`terminal_type` is non-empty, and whose `terminal_type`, `hose`, `conductor`
and `bridge` contain no `'%'`, yields back those five values unchanged. -/
theorem claim4_metadata_roundtrip (pos ttype hose conductor bridge : List Char)
    (hp1 : pos ≠ []) (hp2 : ∀ x ∈ pos, x.isDigit = true)
    (ht1 : ttype ≠ []) (ht2 : ∀ x ∈ ttype, x ≠ '%')
    (hh : ∀ x ∈ hose, x ≠ '%') (hn : ∀ x ∈ conductor, x ≠ '%')
    (hb : ∀ x ∈ bridge, x ≠ '%') :
    (getElementMetadata
      (updateTerminalsValue pos ttype hose conductor bridge)).terminal_pos = pos ∧
    (getElementMetadata
      (updateTerminalsValue pos ttype hose conductor bridge)).terminal_type = ttype ∧
    (getElementMetadata
      (updateTerminalsValue pos ttype hose conductor bridge)).hose = hose ∧
    (getElementMetadata
      (updateTerminalsValue pos ttype hose conductor bridge)).conductor = conductor ∧
    (getElementMetadata
      (updateTerminalsValue pos ttype hose conductor bridge)).bridge = bridge := by
  have hp : ∀ x ∈ pos, x ≠ '%' := fun x hx => ne_pct_of_isDigit (hp2 x hx)
  refine ⟨?_, ?_, ?_, ?_, ?_⟩
  · simp [getElementMetadata, update_searchNum_p _ _ _ _ _ hp1 hp2]
  · simp [getElementMetadata, update_searchStar_t _ _ _ _ _ hp ht2, ht1]
  · simp [getElementMetadata, update_searchStar_h _ _ _ _ _ hp ht2 hh]
  · simp [getElementMetadata, update_searchStar_n _ _ _ _ _ hp ht2 hh hn]
  · simp [getElementMetadata, update_searchStar_b _ _ _ _ _ hp ht2 hh hn hb]

/-- Witness for C4 at a concrete record. -/
theorem claim4_witness :
    (getElementMetadata
      (updateTerminalsValue "12".data "GROUND".data "H1".data "c3".data "yes".data)).terminal_pos = "12".data ∧
    (getElementMetadata
      (updateTerminalsValue "12".data "GROUND".data "H1".data "c3".data "yes".data)).terminal_type = "GROUND".data ∧
    (getElementMetadata
      (updateTerminalsValue "12".data "GROUND".data "H1".data "c3".data "yes".data)).hose = "H1".data ∧
    (getElementMetadata
      (updateTerminalsValue "12".data "GROUND".data "H1".data "c3".data "yes".data)).conductor = "c3".data ∧
    (getElementMetadata
      (updateTerminalsValue "12".data "GROUND".data "H1".data "c3".data "yes".data)).bridge = "yes".data :=
  claim4_metadata_roundtrip "12".data "GROUND".data "H1".data "c3".data "yes".data
    (by decide) (by decide) (by decide) (by decide) (by decide) (by decide)
    (by decide)

/-- C9 as stated is false: `update_terminals` writes only the `%p %t %h %n %b`
tags, but a `%r`, `%z` or `%s` sequence inside one of the written field
values is decoded as if it were a tag.  Here the record's `hose` value is
`'%r5%'`, and decoding the written string yields `num_reserve = '5'`, not the
default `0`. -/
theorem claim9_counterexample :
    ¬ ((getElementMetadata
        (updateTerminalsValue "1".data "S".data "%r5%".data "".data "".data)).num_reserve = MetaVal.int 0 ∧
      (getElementMetadata
        (updateTerminalsValue "1".data "S".data "%r5%".data "".data "".data)).reserve_positions = [] ∧
      (getElementMetadata
        (updateTerminalsValue "1".data "S".data "%r5%".data "".data "".data)).size = MetaVal.int 30) := by
  decide

/-- C9 (amended): provided the five written field values contain no `'%'`
character, decoding the `function` string written by `update_terminals`
yields the defaults `num_reserve = 0`, `reserve_positions = ''` and
`size = 30`, regardless of the `num_reserve`, `reserve_positions` and `size`
values of the record (which are not written). -/
theorem claim9_amended (pos ttype hose conductor bridge : List Char)
    (hp : ∀ x ∈ pos, x ≠ '%') (ht : ∀ x ∈ ttype, x ≠ '%')
    (hh : ∀ x ∈ hose, x ≠ '%') (hn : ∀ x ∈ conductor, x ≠ '%')
    (hb : ∀ x ∈ bridge, x ≠ '%') :
    (getElementMetadata
      (updateTerminalsValue pos ttype hose conductor bridge)).num_reserve = MetaVal.int 0 ∧
    (getElementMetadata
      (updateTerminalsValue pos ttype hose conductor bridge)).reserve_positions = [] ∧
    (getElementMetadata
      (updateTerminalsValue pos ttype hose conductor bridge)).size = MetaVal.int 30 := by
  refine ⟨?_, ?_, ?_⟩
  · simp [getElementMetadata,
      update_searchNum_not_tag 'r' _ _ _ _ _ (by decide) (by decide) (by decide)
        (by decide) (by decide) hp ht hh hn hb]
  · simp [getElementMetadata,
      update_searchStar_not_tag 'z' _ _ _ _ _ (by decide) (by decide) (by decide)
        (by decide) (by decide) hp ht hh hn hb]
  · simp [getElementMetadata, QET_BLOCK_TERMINAL_SIZE,
      update_searchNum_not_tag 's' _ _ _ _ _ (by decide) (by decide) (by decide)
        (by decide) (by decide) hp ht hh hn hb]

/-- Witness for the amended C9 at a concrete record. -/
theorem claim9_witness :
    (getElementMetadata
      (updateTerminalsValue "7".data "FUSE".data "W9".data "c1".data "".data)).num_reserve = MetaVal.int 0 ∧
    (getElementMetadata
      (updateTerminalsValue "7".data "FUSE".data "W9".data "c1".data "".data)).reserve_positions = [] ∧
    (getElementMetadata
      (updateTerminalsValue "7".data "FUSE".data "W9".data "c1".data "".data)).size = MetaVal.int 30 :=
  claim9_amended "7".data "FUSE".data "W9".data "c1".data "".data
    (by decide) (by decide) (by decide) (by decide) (by decide)

/-! ### C2: inclusion of diagram elements in the terminal list -/

theorem reSearchEnd_iff (pat : List Char) :
    ∀ s : List Char, reSearchEnd pat s = true ↔
      ∃ a b, s = a ++ b ∧ matchEndAt pat b = true := by
  intro s
  induction s with
  | nil =>
    constructor
    · intro h
      exact ⟨[], [], rfl, h⟩
    · rintro ⟨a, b, e, h⟩
      rcases List.append_eq_nil.mp e.symm with ⟨rfl, rfl⟩
      exact h
  | cons c cs ih =>
    simp only [reSearchEnd, Bool.or_eq_true]
    constructor
    · rintro (h | h)
      · exact ⟨[], c :: cs, rfl, h⟩
      · rcases ih.mp h with ⟨a, b, e, hm⟩
        exact ⟨c :: a, b, by rw [List.cons_append, ← e], hm⟩
    · rintro ⟨a, b, e, hm⟩
      cases a with
      | nil => exact Or.inl (by rw [List.nil_append] at e; rw [e]; exact hm)
      | cons x a2 =>
        rw [List.cons_append] at e
        injection e with e1 e2
        exact Or.inr (ih.mpr ⟨a2, b, e2, hm⟩)

/-- C2 as stated is false: the code tests the collection element name as a
regular expression anchored at the end of the `type` value, not as a literal
suffix.  With a collection element named `a.b` of `link_type` `terminal`,
the diagram element named `X1:1` with type `axb` is accepted by
`_isValidTerminal` (the `.` matches `x`), although `axb` does not end with
the name `a.b`. -/
theorem claim2_counterexample :
    isValidTerminal
        (getListOfElementsByType "terminal".data
          [{ name := "a.b".data, link_type := some "terminal".data }])
        "X1:1".data (some "axb".data) = true ∧
      claimIncludedTerminal
        [{ name := "a.b".data, link_type := some "terminal".data }]
        "X1:1".data (some "axb".data) = false := by
  decide

/-- C2 (amended): an element with a `type` attribute is included iff its
stripped name matches `'^(.+):(.+)$'` and the `type` value matches some
terminal collection element name as an end-anchored regex — i.e. some split
`ty = a ++ b` exists where `b` matches the name character-wise, a `'.'` in
the name matching any non-newline character.  The hypothesis restricts the
names to literal characters and `'.'`, the regex fragment this embedding
interprets. -/
theorem claim2_amended (coll : List CollectionElement)
    (elementName ty : List Char)
    (hlit : ∀ el ∈ getListOfElementsByType "terminal".data coll,
      ∀ x ∈ el, x ∉ regexSpecialChars) :
    isValidTerminal (getListOfElementsByType "terminal".data coll)
        elementName (some ty) = true ↔
      (matchesTerminalNamePattern (pyStrip elementName) = true ∧
        ∃ el ∈ getListOfElementsByType "terminal".data coll,
          ∃ a b, ty = a ++ b ∧ matchEndAt el b = true) := by
  simp [isValidTerminal, reSearchEnd_iff]

/-- Witness for the amended C2 at a concrete project. -/
theorem claim2_witness :
    isValidTerminal
        (getListOfElementsByType "terminal".data
          [{ name := "tb.elmt".data, link_type := some "terminal".data }])
        "X2:4".data (some "embed:tb.elmt".data) = true ↔
      (matchesTerminalNamePattern (pyStrip "X2:4".data) = true ∧
        ∃ el ∈ getListOfElementsByType "terminal".data
          [{ name := "tb.elmt".data, link_type := some "terminal".data }],
          ∃ a b, "embed:tb.elmt".data = a ++ b ∧ matchEndAt el b = true) :=
  claim2_amended
    [{ name := "tb.elmt".data, link_type := some "terminal".data }]
    "X2:4".data "embed:tb.elmt".data (by decide)

/-! ### C7: the block name and terminal name extracted from a label -/

theorem pySplit_sep_free (sep : Char) :
    ∀ (a : List Char), (∀ c ∈ a, c ≠ sep) → pySplit sep a = [a] := by
  intro a
  induction a with
  | nil => intro _; rfl
  | cons x xs ih =>
    intro h
    have hx : x ≠ sep := h x (by simp)
    have e := ih (fun y hy => h y (by simp [hy]))
    simp [pySplit, hx, e]

theorem pySplit_first (sep : Char) (b : List Char) :
    ∀ (a : List Char), (∀ c ∈ a, c ≠ sep) →
      pySplit sep (a ++ sep :: b) = a :: pySplit sep b := by
  intro a
  induction a with
  | nil => simp [pySplit]
  | cons x xs ih =>
    intro h
    have hx : x ≠ sep := h x (by simp)
    have e := ih (fun y hy => h y (by simp [hy]))
    simp [pySplit, hx, e]

theorem exists_first_occurrence {x : Char} :
    ∀ {s : List Char}, x ∈ s → ∃ a b, s = a ++ x :: b ∧ ∀ c ∈ a, c ≠ x := by
  intro s
  induction s with
  | nil => simp
  | cons y ys ih =>
    intro h
    by_cases hy : y = x
    · subst hy
      exact ⟨[], ys, rfl, by simp⟩
    · have hmem : x ∈ ys := by
        rcases List.mem_cons.mp h with h1 | h1
        · exact absurd h1.symm hy
        · exact h1
      rcases ih hmem with ⟨a, b, e, ha⟩
      refine ⟨y :: a, b, by rw [List.cons_append, ← e], ?_⟩
      intro c hc
      rcases List.mem_cons.mp hc with h1 | h1
      · subst h1; exact hy
      · exact ha c h1

/-- C7 as stated is false: `terminal_name` is `split(':')[1]`, the segment
between the first and the second colon, not the whole rest of the label.
The label `X1:1:2` matches the validity pattern, yet the code extracts block
`X1` and terminal name `1`, whose concatenation `X1:1` is not the label. -/
theorem claim7_counterexample :
    matchesTerminalNamePattern (pyStrip "X1:1:2".data) = true ∧
    blockNameOfLabel "X1:1:2".data = "X1".data ∧
    terminalNameOfLabel "X1:1:2".data = some "1".data ∧
    blockNameOfLabel "X1:1:2".data ++ ':' :: "1".data ≠ "X1:1:2".data := by
  decide

/-- C7 (amended): when the label contains exactly one colon, the extracted
`block_name` (the part before the first colon) and `terminal_name` (the
`split(':')[1]` segment) joined by `':'` reproduce the label. -/
theorem claim7_amended (s : List Char) (h : List.count ':' s = 1) :
    ∃ t, terminalNameOfLabel s = some t ∧
      blockNameOfLabel s ++ ':' :: t = s := by
  have hmem : ':' ∈ s := by
    by_contra hc
    rw [List.count_eq_zero.mpr hc] at h
    exact absurd h (by decide)
  rcases exists_first_occurrence hmem with ⟨a, b, e, ha⟩
  subst e
  have hca : List.count ':' a = 0 := by
    rw [List.count_eq_zero]
    intro hc
    exact ha ':' hc rfl
  have hcb : List.count ':' b = 0 := by
    rw [List.count_append, List.count_cons_self] at h
    omega
  have hb : ∀ c ∈ b, c ≠ ':' := by
    intro c hc e2
    subst e2
    exact absurd hc (List.count_eq_zero.mp hcb)
  rw [blockNameOfLabel, terminalNameOfLabel, pySplit_first ':' b a ha,
    pySplit_sep_free ':' b hb]
  exact ⟨b, rfl, rfl⟩

/-- Witness for the amended C7 at a concrete label. -/
theorem claim7_witness :
    ∃ t, terminalNameOfLabel "X1:5".data = some t ∧
      blockNameOfLabel "X1:5".data ++ ':' :: t = "X1:5".data :=
  claim7_amended "X1:5".data (by decide)

/-! ### C5: the remove loop of `insert_tb` -/

theorem removeLoop_out (p : α → Bool) (i : Nat) (L : List α)
    (h : L.length ≤ i) : removeLoop p i L = L := by
  rw [removeLoop]
  rw [dif_neg (Nat.not_lt.mpr h)]

theorem removeLoop_shift_aux (p : α → Bool) :
    ∀ (n i : Nat) (a : α) (L : List α), L.length - i ≤ n →
      removeLoop p (i + 1) (a :: L) = a :: removeLoop p i L := by
  intro n
  induction n with
  | zero =>
    intro i a L h
    have h1 : L.length ≤ i := by omega
    rw [removeLoop_out p i L h1,
      removeLoop_out p (i + 1) (a :: L) (by simp; omega)]
  | succ n ih =>
    intro i a L h
    by_cases hlt : i < L.length
    · have hlt2 : i + 1 < (a :: L).length := by simp; omega
      conv_lhs => rw [removeLoop]
      conv_rhs => rw [removeLoop]
      rw [dif_pos hlt2, dif_pos hlt]
      have hget : (a :: L).get ⟨i + 1, hlt2⟩ = L.get ⟨i, hlt⟩ := rfl
      rw [hget]
      by_cases hp : p (L.get ⟨i, hlt⟩) = true
      · rw [if_pos hp, if_pos hp]
        have herase : (a :: L).eraseIdx (i + 1) = a :: L.eraseIdx i := rfl
        rw [herase]
        refine ih (i + 1) a (L.eraseIdx i) ?_
        have he : (L.eraseIdx i).length = L.length - 1 := by
          simp [List.length_eraseIdx, hlt]
        omega
      · rw [if_neg hp, if_neg hp]
        exact ih (i + 1) a L (by omega)
    · have h1 : L.length ≤ i := Nat.not_lt.mp hlt
      rw [removeLoop_out p i L h1,
        removeLoop_out p (i + 1) (a :: L) (by simp; omega)]

theorem removeLoop_shift (p : α → Bool) (i : Nat) (a : α) (L : List α) :
    removeLoop p (i + 1) (a :: L) = a :: removeLoop p i L :=
  removeLoop_shift_aux p (L.length - i) i a L (Nat.le_refl _)

theorem removeLoop_zero_nil (p : α → Bool) :
    removeLoop p 0 ([] : List α) = [] := by
  rw [removeLoop]
  rfl

theorem removeLoop_zero_cons (p : α → Bool) (a : α) (L : List α) :
    removeLoop p 0 (a :: L) =
      if p a then
        (match L with
          | [] => []
          | b :: L2 => b :: removeLoop p 0 L2)
      else a :: removeLoop p 0 L := by
  conv_lhs => rw [removeLoop]
  rw [dif_pos (by simp)]
  have hget : (a :: L).get ⟨0, by simp⟩ = a := rfl
  rw [hget]
  by_cases hp : p a = true
  · rw [if_pos hp, if_pos hp]
    have he : (a :: L).eraseIdx 0 = L := rfl
    rw [he]
    cases L with
    | nil => exact removeLoop_out p 1 [] (by simp)
    | cons b L2 => exact removeLoop_shift p 0 b L2
  · rw [if_neg hp, if_neg hp]
    exact removeLoop_shift p 0 a L

theorem removeLoop_eq_filter_aux (p : α → Bool) :
    ∀ (n : Nat) (L : List α), L.length ≤ n →
      List.Chain' (fun a b => ¬(p a = true ∧ p b = true)) L →
      removeLoop p 0 L = L.filter (fun a => !(p a)) := by
  intro n
  induction n with
  | zero =>
    intro L h _
    have : L = [] := List.length_eq_zero.mp (by omega)
    subst this
    rw [removeLoop_zero_nil]
    rfl
  | succ n ih =>
    intro L h hc
    cases L with
    | nil =>
      rw [removeLoop_zero_nil]
      rfl
    | cons a L2 =>
      rw [removeLoop_zero_cons]
      by_cases hp : p a = true
      · rw [if_pos hp]
        cases L2 with
        | nil => simp [List.filter, hp]
        | cons b L3 =>
          have h1 : ¬(p a = true ∧ p b = true) := (List.chain'_cons.mp hc).1
          have hpb : p b = false := by
            cases hpb2 : p b
            · rfl
            · exact absurd ⟨hp, hpb2⟩ h1
          have hc3 : List.Chain' (fun a b => ¬(p a = true ∧ p b = true)) L3 :=
            List.Chain'.tail (List.chain'_cons.mp hc).2
          show b :: removeLoop p 0 L3 = _
          rw [ih L3 (by simp at h; omega) hc3]
          simp [List.filter, hp, hpb]
      · rw [if_neg hp]
        have hc2 : List.Chain' (fun a b => ¬(p a = true ∧ p b = true)) L2 :=
          List.Chain'.tail hc
        rw [ih L2 (by simp at h; omega) hc2]
        simp [List.filter_cons, hp]

theorem removeLoop_eq_filter (p : α → Bool) (L : List α)
    (hc : List.Chain' (fun a b => ¬(p a = true ∧ p b = true)) L) :
    removeLoop p 0 L = L.filter (fun a => !(p a)) :=
  removeLoop_eq_filter_aux p L.length L (Nat.le_refl _) hc

unseal removeLoop in
/-- C5 as stated is false: `insert_tb` removes elements while iterating over
the same list, and CPython's list iterator then skips the element that
directly follows a removed one.  With two adjacent children both named
`TB_X.elmt`, the second survives the removal loop, so after insertion the
category still contains another element with the target name. -/
theorem claim5_counterexample :
    ¬ ((insert_tb "X".data { name := "NEW".data }
          [{ name := "TB_X.elmt".data }, { name := "TB_X.elmt".data }]).head? =
            some { name := "NEW".data } ∧
      ∀ e ∈ (insert_tb "X".data { name := "NEW".data }
          [{ name := "TB_X.elmt".data }, { name := "TB_X.elmt".data }]).tail,
        e.name ≠ insertTbTargetName "X".data) := by
  decide

/-- C5 (amended): after `insert_tb(name, tb_node)` the category contains
`tb_node` as its first child, and — provided no two consecutive children both
carry the target name `'TB_' + name + '.elmt'` — no other element with that
name remains; in particular a single previously inserted block of the same
name is removed.  (Adjacent duplicates can survive, because removal advances
the list iterator past the following sibling.) -/
theorem claim5_amended (name : List Char) (tb : XmlElement)
    (category : List XmlElement)
    (hadj : List.Chain' (fun a b =>
      ¬((a.name == insertTbTargetName name) = true ∧
        (b.name == insertTbTargetName name) = true)) category) :
    (insert_tb name tb category).head? = some tb ∧
    ∀ e ∈ (insert_tb name tb category).tail,
      e.name ≠ insertTbTargetName name := by
  constructor
  · rfl
  · intro e he
    rw [insert_tb, List.tail_cons, removeLoop_eq_filter _ _ hadj] at he
    have hme := List.of_mem_filter he
    simp only [Bool.not_eq_true'] at hme
    exact beq_eq_false_iff_ne.mp hme

/-- Witness for the amended C5 at a concrete category. -/
theorem claim5_witness :
    (insert_tb "X".data { name := "NEW".data }
        [{ name := "TB_X.elmt".data }, { name := "keep.elmt".data }]).head? =
      some { name := "NEW".data } ∧
    ∀ e ∈ (insert_tb "X".data { name := "NEW".data }
        [{ name := "TB_X.elmt".data }, { name := "keep.elmt".data }]).tail,
      e.name ≠ insertTbTargetName "X".data :=
  claim5_amended "X".data { name := "NEW".data }
    [{ name := "TB_X.elmt".data }, { name := "keep.elmt".data }] (by
      rw [List.chain'_cons]
      exact ⟨by decide, List.chain'_singleton _⟩)

/-! ### C8: non-emptiness as a precondition of `TerminalBlock` -/

/-- C8: for every non-empty collection, the `terminals[0]` access in the
`TerminalBlock` constructor and the `max` over per-terminal cable-name
lengths in `drawTerminalBlock` are defined, and the empty collection is
rejected by the constructor (`terminals[0]` raises `IndexError`). -/
theorem claim8_nonempty_precondition (name : String)
    (collec : List (TerminalRec Nat)) (settings : TBSettings) :
    (collec ≠ [] →
      (TerminalBlock_init name collec settings).isSome = true ∧
      (maxCondNameLength collec).isSome = true) ∧
    TerminalBlock_init name [] settings = none := by
  constructor
  · intro h
    cases collec with
    | nil => exact absurd rfl h
    | cons t ts => exact ⟨rfl, rfl⟩
  · rfl

/-- Witness for C8 at a concrete collection. -/
theorem claim8_witness :
    ((sampleTerminalNat "X1" 1 :: []) ≠ [] →
      (TerminalBlock_init "X1" [sampleTerminalNat "X1" 1] sampleSettings).isSome = true ∧
      (maxCondNameLength [sampleTerminalNat "X1" 1]).isSome = true) ∧
    TerminalBlock_init "X1" [] sampleSettings = none :=
  claim8_nonempty_precondition "X1" [sampleTerminalNat "X1" 1] sampleSettings

/-! ### C6: the bounding dimensions of `drawTerminalBlock` -/

theorem roundUpTenth_spec (t : Int) :
    roundUpTenth t % 10 = 0 ∧ t ≤ roundUpTenth t ∧
      ∀ m : Int, m % 10 = 0 → t ≤ m → roundUpTenth t ≤ m := by
  induction t using roundUpTenth.induct with
  | case1 t ht =>
    rw [roundUpTenth, if_pos ht]
    exact ⟨ht, le_refl _, fun m _ h2 => h2⟩
  | case2 t ht ih =>
    rw [roundUpTenth, if_neg ht]
    rcases ih with ⟨i1, i2, i3⟩
    exact ⟨i1, by omega, fun m hm h2 => i3 m hm (by omega)⟩

/-- C6: for a non-empty collection, the `width` of the generated definition
node is the smallest multiple of 10 strictly greater than
`HEAD_WIDTH + UNION_WIDTH + num_terminals * TERMINAL_WIDTH`, and the `height`
is the smallest multiple of 10 strictly greater than `CONDUCTOR_LENGTH +
TERMINAL_HEIGHT + HOSE_CONDUCTOR_START + HOSE_LENGTH + HOSE_CONDUCTOR_END`. -/
theorem claim6_dimensions (s : TBSettings) (collec : List (TerminalRec Nat))
    (hne : collec ≠ []) :
    (drawTotalWidth s collec.length % 10 = 0 ∧
      s.HEAD_WIDTH + s.UNION_WIDTH + (collec.length : Int) * s.TERMINAL_WIDTH <
        drawTotalWidth s collec.length ∧
      ∀ m : Int, m % 10 = 0 →
        s.HEAD_WIDTH + s.UNION_WIDTH + (collec.length : Int) * s.TERMINAL_WIDTH < m →
        drawTotalWidth s collec.length ≤ m) ∧
    (drawTotalHeight s % 10 = 0 ∧
      s.CONDUCTOR_LENGTH + s.TERMINAL_HEIGHT + s.HOSE_CONDUCTOR_START +
        s.HOSE_LENGTH + s.HOSE_CONDUCTOR_END < drawTotalHeight s ∧
      ∀ m : Int, m % 10 = 0 →
        s.CONDUCTOR_LENGTH + s.TERMINAL_HEIGHT + s.HOSE_CONDUCTOR_START +
          s.HOSE_LENGTH + s.HOSE_CONDUCTOR_END < m →
        drawTotalHeight s ≤ m) := by
  constructor
  · rcases roundUpTenth_spec
      (s.HEAD_WIDTH + s.UNION_WIDTH + (collec.length : Int) * s.TERMINAL_WIDTH + 1)
      with ⟨h1, h2, h3⟩
    exact ⟨h1, by rw [drawTotalWidth] at *; omega,
      fun m hm hlt => by rw [drawTotalWidth]; exact h3 m hm (by omega)⟩
  · rcases roundUpTenth_spec
      (s.CONDUCTOR_LENGTH + s.TERMINAL_HEIGHT + s.HOSE_CONDUCTOR_START +
        s.HOSE_LENGTH + s.HOSE_CONDUCTOR_END + 1)
      with ⟨h1, h2, h3⟩
    exact ⟨h1, by rw [drawTotalHeight] at *; omega,
      fun m hm hlt => by rw [drawTotalHeight]; exact h3 m hm (by omega)⟩

/-- Witness for C6 at the default settings and a three-terminal collection. -/
theorem claim6_witness :
    (drawTotalWidth sampleSettings
        [sampleTerminalNat "X1" 1, sampleTerminalNat "X1" 2,
          sampleTerminalNat "X1" 3].length % 10 = 0 ∧
      sampleSettings.HEAD_WIDTH + sampleSettings.UNION_WIDTH +
        (([sampleTerminalNat "X1" 1, sampleTerminalNat "X1" 2,
          sampleTerminalNat "X1" 3].length : Int)) * sampleSettings.TERMINAL_WIDTH <
        drawTotalWidth sampleSettings
          [sampleTerminalNat "X1" 1, sampleTerminalNat "X1" 2,
            sampleTerminalNat "X1" 3].length ∧
      ∀ m : Int, m % 10 = 0 →
        sampleSettings.HEAD_WIDTH + sampleSettings.UNION_WIDTH +
          (([sampleTerminalNat "X1" 1, sampleTerminalNat "X1" 2,
            sampleTerminalNat "X1" 3].length : Int)) * sampleSettings.TERMINAL_WIDTH < m →
        drawTotalWidth sampleSettings
          [sampleTerminalNat "X1" 1, sampleTerminalNat "X1" 2,
            sampleTerminalNat "X1" 3].length ≤ m) ∧
    (drawTotalHeight sampleSettings % 10 = 0 ∧
      sampleSettings.CONDUCTOR_LENGTH + sampleSettings.TERMINAL_HEIGHT +
        sampleSettings.HOSE_CONDUCTOR_START + sampleSettings.HOSE_LENGTH +
        sampleSettings.HOSE_CONDUCTOR_END < drawTotalHeight sampleSettings ∧
      ∀ m : Int, m % 10 = 0 →
        sampleSettings.CONDUCTOR_LENGTH + sampleSettings.TERMINAL_HEIGHT +
          sampleSettings.HOSE_CONDUCTOR_START + sampleSettings.HOSE_LENGTH +
          sampleSettings.HOSE_CONDUCTOR_END < m →
        drawTotalHeight sampleSettings ≤ m) :=
  claim6_dimensions sampleSettings
    [sampleTerminalNat "X1" 1, sampleTerminalNat "X1" 2, sampleTerminalNat "X1" 3]
    (by decide)

/-! ### C10: definedness of the row-letter lookup -/

theorem pyIndex_isSome (l : List α) (i : Int) :
    (pyIndex l i).isSome = true ↔
      -(l.length : Int) ≤ i ∧ i < (l.length : Int) := by
  unfold pyIndex
  split_ifs with h1 h2
  · rw [Option.isSome_iff_ne_none, ne_eq, List.getElem?_eq_none_iff]
    omega
  · rw [Option.isSome_iff_ne_none, ne_eq, List.getElem?_eq_none_iff]
    omega
  · simp only [Option.isSome_none, Bool.false_eq_true, false_iff]
    omega

theorem rowsLetters_length (rows : Int) :
    ((rowsLetters rows).length : Int) = max rows 0 := by
  simp [rowsLetters]

/-- C10 as stated is false in its only-if direction: for `rows = 2`,
`rowsize = 25` and `y = 0` the coordinate lies outside
`[25, 25 + rows * rowsize)`, yet the lookup succeeds — Python `int()`
truncates toward zero and a negative index counts from the end of
`rows_letters`, so `rows_letters[int((0 - 25) / 25)] = rows_letters[-1]`
is the last letter. -/
theorem claim10_counterexample :
    ¬ (25 ≤ (0 : Int) ∧ (0 : Int) < 25 + 2 * 25) ∧
    (getXRefByCoord
      { cols := 10, colsize := 25, rows := 2, rowsize := 25, order := 1,
        folio := [], machine := [], locmach := [] } 30 0).isSome = true := by
  constructor
  · omega
  · rfl

/-- C10 (amended): with positive `rows` and `rowsize`, the row-letter lookup
of `_getXRefByCoord` succeeds for every `y` in `[25, 25 + rows * rowsize)`
(that direction of the claim holds); but in general it succeeds exactly when
the truncated index `int((y - 25) / rowsize)` lies in `[-rows, rows)` —
Python's negative indexing also accepts coordinates above the grid. -/
theorem claim10_amended (d : DiagramAttrs) (x y : Int) (hrows : 0 < d.rows)
    (hrs : 0 < d.rowsize) :
    ((getXRefByCoord d x y).isSome = true ↔
      -d.rows ≤ Int.tdiv (y - 25) d.rowsize ∧
        Int.tdiv (y - 25) d.rowsize < d.rows) ∧
    (25 ≤ y ∧ y < 25 + d.rows * d.rowsize →
      (getXRefByCoord d x y).isSome = true) := by
  have hidx : Int.tdiv (y - QET_COL_ROW_SIZE) d.rowsize - 1 + 1 =
      Int.tdiv (y - 25) d.rowsize := by
    rw [QET_COL_ROW_SIZE]
    omega
  have hiff : (getXRefByCoord d x y).isSome = true ↔
      -d.rows ≤ Int.tdiv (y - 25) d.rowsize ∧
        Int.tdiv (y - 25) d.rowsize < d.rows := by
    rw [getXRefByCoord]
    simp only [Option.isSome_map']
    rw [hidx, pyIndex_isSome, rowsLetters_length]
    omega
  refine ⟨hiff, ?_⟩
  rintro ⟨hy1, hy2⟩
  rw [hiff]
  have h0 : (0 : Int) ≤ y - 25 := by omega
  have he : Int.tdiv (y - 25) d.rowsize = (y - 25) / d.rowsize :=
    Int.tdiv_eq_ediv h0 (by omega)
  constructor
  · rw [he]
    have := Int.ediv_nonneg h0 (by omega : (0 : Int) ≤ d.rowsize)
    omega
  · rw [he]
    rw [Int.ediv_lt_iff_lt_mul hrs]
    omega

/-- Witness for the amended C10 at a concrete diagram. -/
theorem claim10_witness :
    ((getXRefByCoord
        { cols := 10, colsize := 25, rows := 6, rowsize := 25, order := 1,
          folio := [], machine := [], locmach := [] } 50 60).isSome = true ↔
      -(6 : Int) ≤ Int.tdiv ((60 : Int) - 25) 25 ∧
        Int.tdiv ((60 : Int) - 25) 25 < 6) ∧
    (25 ≤ (60 : Int) ∧ (60 : Int) < 25 + 6 * 25 →
      (getXRefByCoord
        { cols := 10, colsize := 25, rows := 6, rowsize := 25, order := 1,
          folio := [], machine := [], locmach := [] } 50 60).isSome = true) :=
  claim10_amended
    { cols := 10, colsize := 25, rows := 6, rowsize := 25, order := 1,
      folio := [], machine := [], locmach := [] } 50 60 (by decide) (by decide)

/-! ### C3: the substitution chain of `_getXRef` -/

theorem isPrefixOf_self_append (pat rest : List Char) :
    pat.isPrefixOf (pat ++ rest) = true :=
  List.isPrefixOf_iff_prefix.mpr (List.prefix_append pat rest)

theorem isPrefixOf_cons_ne (p0 c : Char) (ps s : List Char) (h : p0 ≠ c) :
    (p0 :: ps).isPrefixOf (c :: s) = false := by
  cases e : (p0 :: ps).isPrefixOf (c :: s)
  · rfl
  · rcases List.isPrefixOf_iff_prefix.mp e with ⟨t, ht⟩
    rw [List.cons_append] at ht
    injection ht with h1 _
    exact absurd h1 h

theorem pyReplace_nil (pat rep : List Char) : pyReplace pat rep [] = [] := by
  rw [pyReplace]

theorem pyReplace_cons_no (pat rep : List Char) (c : Char) (s : List Char)
    (h : pat.isPrefixOf (c :: s) = false) :
    pyReplace pat rep (c :: s) = c :: pyReplace pat rep s := by
  rw [pyReplace]
  rw [dif_neg ?_]
  rintro ⟨_, h2⟩
  rw [h] at h2
  exact absurd h2 (by decide)

theorem pyReplace_match (p0 : Char) (ps rep s rest : List Char)
    (hs : s = (p0 :: ps) ++ rest) :
    pyReplace (p0 :: ps) rep s = rep ++ pyReplace (p0 :: ps) rep rest := by
  subst hs
  rw [List.cons_append, pyReplace]
  rw [dif_pos ⟨by simp, by
    rw [← List.cons_append]
    exact isPrefixOf_self_append _ _⟩]
  congr 1
  rw [← List.cons_append]
  congr 1
  exact List.drop_left (p0 :: ps) rest

theorem pyReplace_append_skip (p0 : Char) (ps rep s : List Char) :
    ∀ (a : List Char), (∀ c ∈ a, c ≠ p0) →
      pyReplace (p0 :: ps) rep (a ++ s) = a ++ pyReplace (p0 :: ps) rep s := by
  intro a
  induction a with
  | nil => intro _; rfl
  | cons x xs ih =>
    intro h
    rw [List.cons_append,
      pyReplace_cons_no _ _ _ _ (isPrefixOf_cons_ne _ _ _ _ (h x (by simp)).symm),
      ih (fun y hy => h y (by simp [hy])), List.cons_append]

theorem pyContains_nil_pat (s : List Char) (p0 : Char) (ps : List Char) :
    pyContains (p0 :: ps) [] = false := rfl

theorem pyContains_cons_ne (p0 c : Char) (ps s : List Char) (h : p0 ≠ c) :
    pyContains (p0 :: ps) (c :: s) = pyContains (p0 :: ps) s := by
  rw [pyContains, isPrefixOf_cons_ne _ _ _ _ h, Bool.false_or]

theorem pyContains_append_skip (p0 : Char) (ps s : List Char) :
    ∀ (a : List Char), (∀ c ∈ a, c ≠ p0) →
      pyContains (p0 :: ps) (a ++ s) = pyContains (p0 :: ps) s := by
  intro a
  induction a with
  | nil => intro _; rfl
  | cons x xs ih =>
    intro h
    rw [List.cons_append, pyContains_cons_ne _ _ _ _ (h x (by simp)).symm,
      ih (fun y hy => h y (by simp [hy]))]

theorem pyReplace_not_contains (pat : List Char) (rep : List Char) :
    ∀ (s : List Char), pyContains pat s = false → pyReplace pat rep s = s := by
  intro s
  induction s with
  | nil => intro _; exact pyReplace_nil pat rep
  | cons c cs ih =>
    intro h
    rw [pyContains, Bool.or_eq_false_iff] at h
    rw [pyReplace_cons_no _ _ _ _ h.1, ih h.2]

theorem digitChar_ne_pct (d : Nat) : digitChar d ≠ '%' := by
  rw [digitChar]
  split_ifs <;> decide

theorem natToCharsAux_no_pct :
    ∀ (n : Nat) (acc : List Char), (∀ c ∈ acc, c ≠ '%') →
      ∀ c ∈ natToCharsAux n acc, c ≠ '%' := by
  intro n
  induction n using Nat.strong_induction_on with
  | _ n ih =>
    intro acc hacc c hc
    rw [natToCharsAux] at hc
    by_cases h10 : n < 10
    · rw [if_pos h10] at hc
      rcases List.mem_cons.mp hc with h1 | h1
      · rw [h1]; exact digitChar_ne_pct n
      · exact hacc c h1
    · rw [if_neg h10] at hc
      refine ih (n / 10) (by omega) (digitChar (n % 10) :: acc) ?_ c hc
      intro cc hcc
      rcases List.mem_cons.mp hcc with h1 | h1
      · rw [h1]; exact digitChar_ne_pct _
      · exact hacc cc h1

theorem natToChars_no_pct (n : Nat) : ∀ c ∈ natToChars n, c ≠ '%' :=
  natToCharsAux_no_pct n [] (by simp)

theorem intToChars_no_pct (i : Int) : ∀ c ∈ intToChars i, c ≠ '%' := by
  rw [intToChars]
  split_ifs
  · intro c hc
    rcases List.mem_cons.mp hc with h1 | h1
    · rw [h1]; decide
    · exact natToChars_no_pct _ c h1
  · exact natToChars_no_pct _

theorem charOfNat_ne_pct (m : Nat) (h : m ≠ 37) : Char.ofNat m ≠ '%' := by
  intro hc
  have hv : (Char.ofNat m).val.toNat = ('%' : Char).val.toNat := by rw [hc]
  rw [Char.ofNat] at hv
  split at hv
  · rw [Char.ofNatAux] at hv
    simp at hv
    exact h hv
  · exact absurd hv (by decide)

theorem pyReplace_match2 (pat rep s rest : List Char) (hne : pat ≠ [])
    (hs : s = pat ++ rest) :
    pyReplace pat rep s = rep ++ pyReplace pat rep rest := by
  rcases pat with _ | ⟨p0, ps⟩
  · exact absurd rfl hne
  · exact pyReplace_match p0 ps rep s rest hs

theorem pyReplace_append_skip2 (pat rep s a : List Char) (p0 : Char)
    (hp : pat.head? = some p0) (ha : ∀ c ∈ a, c ≠ p0) :
    pyReplace pat rep (a ++ s) = a ++ pyReplace pat rep s := by
  rcases pat with _ | ⟨q0, qs⟩
  · exact absurd hp (by simp)
  · rw [List.head?_cons] at hp
    injection hp with hq
    subst hq
    exact pyReplace_append_skip q0 qs rep s a ha

theorem pyReplace_cons_ne2 (pat rep : List Char) (c : Char) (s : List Char)
    (p0 : Char) (hp : pat.head? = some p0) (hc : p0 ≠ c) :
    pyReplace pat rep (c :: s) = c :: pyReplace pat rep s := by
  rcases pat with _ | ⟨q0, qs⟩
  · exact absurd hp (by simp)
  · rw [List.head?_cons] at hp
    injection hp with hq
    subst hq
    exact pyReplace_cons_no _ _ _ _ (isPrefixOf_cons_ne _ _ _ _ hc)

theorem pyContains_append_skip2 (pat s a : List Char) (p0 : Char)
    (hp : pat.head? = some p0) (ha : ∀ c ∈ a, c ≠ p0) :
    pyContains pat (a ++ s) = pyContains pat s := by
  rcases pat with _ | ⟨q0, qs⟩
  · exact absurd hp (by simp)
  · rw [List.head?_cons] at hp
    injection hp with hq
    subst hq
    exact pyContains_append_skip q0 qs s a ha

theorem pyContains_cons_ne2 (pat : List Char) (c : Char) (s : List Char)
    (p0 : Char) (hp : pat.head? = some p0) (hc : p0 ≠ c) :
    pyContains pat (c :: s) = pyContains pat s := by
  rcases pat with _ | ⟨q0, qs⟩
  · exact absurd hp (by simp)
  · rw [List.head?_cons] at hp
    injection hp with hq
    subst hq
    exact pyContains_cons_ne _ _ _ _ hc

theorem getXRef_default_subst (page totalChars folio machine locmach col : List Char)
    (row : Char) (hpage : ∀ c ∈ page, c ≠ '%') (hrow : row ≠ '%') :
    substTag "%c".data col
      (substTag "%l".data [row]
        (substTag "%LM".data locmach
          (substTag "%M".data machine
            (substFolioF page totalChars folio
              (substTag "%f".data page defaultFolioRef))))) =
      page ++ '-' :: row :: col := by
  have h1 : substTag "%f".data page defaultFolioRef = page ++ "-%l%c".data := by
    rw [substTag, if_pos (by decide : pyContains "%f".data defaultFolioRef = true)]
    rw [pyReplace_match2 "%f".data page defaultFolioRef "-%l%c".data
      (by decide) (by decide)]
    rw [pyReplace_not_contains _ _ _ (by decide)]
  rw [h1]
  have h2 : substFolioF page totalChars folio (page ++ "-%l%c".data) =
      page ++ "-%l%c".data := by
    rw [substFolioF]
    rw [if_neg ?_]
    rw [pyContains_append_skip2 "%F".data "-%l%c".data page '%' rfl hpage]
    decide
  rw [h2]
  have h3 : substTag "%M".data machine (page ++ "-%l%c".data) =
      page ++ "-%l%c".data := by
    rw [substTag]
    rw [if_neg ?_]
    rw [pyContains_append_skip2 "%M".data "-%l%c".data page '%' rfl hpage]
    decide
  rw [h3]
  have h4 : substTag "%LM".data locmach (page ++ "-%l%c".data) =
      page ++ "-%l%c".data := by
    rw [substTag]
    rw [if_neg ?_]
    rw [pyContains_append_skip2 "%LM".data "-%l%c".data page '%' rfl hpage]
    decide
  rw [h4]
  have h5 : substTag "%l".data [row] (page ++ "-%l%c".data) =
      page ++ '-' :: row :: "%c".data := by
    rw [substTag]
    rw [if_pos ?_]
    · rw [pyReplace_append_skip2 "%l".data [row] "-%l%c".data page '%' rfl hpage]
      congr 1
      rw [pyReplace_cons_ne2 "%l".data [row] '-' "%l%c".data '%' rfl (by decide)]
      rw [pyReplace_match2 "%l".data [row] "%l%c".data "%c".data
        (by decide) (by decide)]
      rw [pyReplace_not_contains _ _ _ (by decide)]
      rfl
    · rw [pyContains_append_skip2 "%l".data "-%l%c".data page '%' rfl hpage]
      decide
  rw [h5]
  have h6 : substTag "%c".data col (page ++ '-' :: row :: "%c".data) =
      page ++ '-' :: row :: col := by
    rw [substTag]
    rw [if_pos ?_]
    · rw [pyReplace_append_skip2 "%c".data col ('-' :: row :: "%c".data) page
        '%' rfl hpage]
      congr 1
      rw [pyReplace_cons_ne2 "%c".data col '-' (row :: "%c".data) '%' rfl
        (by decide)]
      rw [pyReplace_cons_ne2 "%c".data col row "%c".data '%' rfl
        (fun e => hrow e.symm)]
      rw [pyReplace_match2 "%c".data col "%c".data [] (by decide) (by simp)]
      rw [pyReplace_nil]
      simp
    · rw [pyContains_append_skip2 "%c".data ('-' :: row :: "%c".data) page '%'
        rfl hpage]
      rw [pyContains_cons_ne2 "%c".data '-' (row :: "%c".data) '%' rfl
        (by decide)]
      rw [pyContains_cons_ne2 "%c".data row "%c".data '%' rfl
        (fun e => hrow e.symm)]
      decide
  rw [h6]

theorem getXRefByCoord_in_grid (d : DiagramAttrs) (x y : Int)
    (hy : 25 ≤ y) (hrs : 0 < d.rowsize)
    (hlt : Int.tdiv (y - 25) d.rowsize < d.rows) :
    getXRefByCoord d x y =
      some (Char.ofNat ((Int.tdiv (y - 25) d.rowsize).toNat + 65),
        intToChars (Int.tdiv (x - 25) d.colsize + 1)) := by
  have hidx0 : 0 ≤ Int.tdiv (y - 25) d.rowsize :=
    Int.tdiv_nonneg (by omega) (by omega)
  rw [getXRefByCoord, QET_COL_ROW_SIZE]
  have hidx : Int.tdiv (y - 25) d.rowsize - 1 + 1 =
      Int.tdiv (y - 25) d.rowsize := by omega
  rw [hidx, pyIndex, if_pos hidx0, rowsLetters, List.getElem?_map,
    List.getElem?_range
      (by omega : (Int.tdiv (y - 25) d.rowsize).toNat < d.rows.toNat)]
  rfl

unseal pyReplace natToCharsAux in
/-- C3 as stated is false: Python `int()` truncates toward zero while the
claim's formula uses `floor`, and the two differ for coordinates left of or
above the grid origin.  At `x = 20` with `colsize = 25` the code computes
column `int(-0.2) + 1 = 1`, but the claim's formula gives
`floor(-0.2) + 1 = 0`. -/
theorem claim3_counterexample :
    getXRef defaultFolioRef 0 5
        { cols := 10, colsize := 25, rows := 5, rowsize := 25, order := 1,
          folio := [], machine := [], locmach := [] } 20 30 ≠
      some (claimXRefDefault 0
        { cols := 10, colsize := 25, rows := 5, rowsize := 25, order := 1,
          folio := [], machine := [], locmach := [] } 20 30) := by
  decide

/-- C3 (amended): for a project whose folio reference format is the default
`'%f-%l%c'`, and an element with `x ≥ 25` and `y ≥ 25` whose row index lies
inside the grid, the computed cross reference is
`str(order + pageOffset) + '-' + chr(65 + floor((y - 25) / rowsize)) +
str(floor((x - 25) / colsize) + 1)` — for such coordinates the code's
truncation toward zero agrees with the claim's floor. -/
theorem claim3_amended (pageOffset totalPages : Int) (d : DiagramAttrs)
    (x y : Int) (hx : 25 ≤ x) (hy : 25 ≤ y) (hrs : 0 < d.rowsize)
    (hcs : 0 < d.colsize)
    (hlt : Int.tdiv (y - 25) d.rowsize < d.rows) :
    getXRef defaultFolioRef pageOffset totalPages d x y =
      some (claimXRefDefault pageOffset d x y) := by
  rw [getXRef, getXRefByCoord_in_grid d x y hy hrs hlt, Option.map_some']
  congr 1
  show substTag "%c".data (intToChars (Int.tdiv (x - 25) d.colsize + 1))
      (substTag "%l".data
        [Char.ofNat ((Int.tdiv (y - 25) d.rowsize).toNat + 65)]
        (substTag "%LM".data d.locmach
          (substTag "%M".data d.machine
            (substFolioF (intToChars (d.order + pageOffset))
              (intToChars totalPages) d.folio
              (substTag "%f".data (intToChars (d.order + pageOffset))
                defaultFolioRef))))) =
      claimXRefDefault pageOffset d x y
  rw [getXRef_default_subst _ _ _ _ _ _ _ (intToChars_no_pct _)
    (charOfNat_ne_pct _ (by omega))]
  rw [claimXRefDefault]
  have hfy : Int.fdiv (y - 25) d.rowsize = Int.tdiv (y - 25) d.rowsize := by
    rw [Int.fdiv_eq_ediv _ (by omega), Int.tdiv_eq_ediv (by omega) (by omega)]
  have hfx : Int.fdiv (x - 25) d.colsize = Int.tdiv (x - 25) d.colsize := by
    rw [Int.fdiv_eq_ediv _ (by omega), Int.tdiv_eq_ediv (by omega) (by omega)]
  rw [hfy, hfx]
  have hch : ((65 : Int) + Int.tdiv (y - 25) d.rowsize).toNat =
      (Int.tdiv (y - 25) d.rowsize).toNat + 65 := by
    have hidx0 : 0 ≤ Int.tdiv (y - 25) d.rowsize :=
      Int.tdiv_nonneg (by omega) (by omega)
    omega
  rw [hch]

/-- Witness for the amended C3 at a concrete in-grid element. -/
theorem claim3_witness :
    getXRef defaultFolioRef 1 7
        { cols := 10, colsize := 25, rows := 6, rowsize := 25, order := 2,
          folio := [], machine := [], locmach := [] } 50 60 =
      some (claimXRefDefault 1
        { cols := 10, colsize := 25, rows := 6, rowsize := 25, order := 2,
          folio := [], machine := [], locmach := [] } 50 60) :=
  claim3_amended 1 7
    { cols := 10, colsize := 25, rows := 6, rowsize := 25, order := 2,
      folio := [], machine := [], locmach := [] } 50 60
    (by decide) (by decide) (by decide) (by decide) (by decide)

/-! ### C1: the sort-and-renumber pass -/

theorem pairwise_orderedInsert {α : Type} (r : α → α → Prop) [DecidableRel r]
    (q : α → α → Prop) (hcomp : ∀ x z, ¬ r x z → q z x) (a : α) :
    ∀ (L : List α), L.Pairwise q → (∀ b ∈ L, q a b) →
      (L.orderedInsert r a).Pairwise q := by
  intro L
  induction L with
  | nil => intro _ _; simp
  | cons b L ih =>
    intro h1 h2
    rw [List.orderedInsert]
    by_cases hr : r a b
    · rw [if_pos hr]
      exact List.pairwise_cons.mpr ⟨h2, h1⟩
    · rw [if_neg hr]
      rcases List.pairwise_cons.mp h1 with ⟨hb, hL⟩
      refine List.pairwise_cons.mpr ⟨?_, ih hL (fun v hv => h2 v (by simp [hv]))⟩
      intro v hv
      rcases (List.mem_orderedInsert r).mp hv with hva | hv2
      · rw [hva]
        exact hcomp a b hr
      · exact hb v hv2

theorem pairwise_insertionSort {α : Type} (r : α → α → Prop) [DecidableRel r]
    (q : α → α → Prop) (hcomp : ∀ x z, ¬ r x z → q z x) :
    ∀ (L : List α), L.Pairwise q → (List.insertionSort r L).Pairwise q := by
  intro L
  induction L with
  | nil => intro _; simp
  | cons a L ih =>
    intro h
    rcases List.pairwise_cons.mp h with ⟨ha, hL⟩
    rw [List.insertionSort]
    refine pairwise_orderedInsert r q hcomp a _ (ih hL) ?_
    intro b hb
    exact ha b ((List.mem_insertionSort r).mp hb)

theorem setPos_block (t : TerminalRec String) (i : Nat) :
    (setPos t i).block_name = t.block_name := rfl

theorem setPos_pos (t : TerminalRec String) (i : Nat) :
    (setPos t i).terminal_pos = i := rfl

theorem renumberTerminals_nil (m : String) (i : Nat) :
    renumberTerminals m i [] = [] := rfl

theorem renumberTerminals_cons_ne (m : String) (i : Nat)
    (t : TerminalRec String) (ts : List (TerminalRec String))
    (h : t.block_name ≠ m) :
    renumberTerminals m i (t :: ts) =
      setPos t 1 :: renumberTerminals t.block_name 2 ts := by
  rw [renumberTerminals, if_pos h]

theorem renumberTerminals_cons_eq (m : String) (i : Nat)
    (t : TerminalRec String) (ts : List (TerminalRec String))
    (h : t.block_name = m) :
    renumberTerminals m i (t :: ts) =
      setPos t i :: renumberTerminals t.block_name (i + 1) ts := by
  rw [renumberTerminals, if_neg (fun hc => hc h)]

theorem renumberTerminals_one (m : String) (t : TerminalRec String)
    (ts : List (TerminalRec String)) :
    renumberTerminals m 1 (t :: ts) =
      setPos t 1 :: renumberTerminals t.block_name 2 ts := by
  by_cases h : t.block_name = m
  · rw [renumberTerminals_cons_eq m 1 t ts h]
  · rw [renumberTerminals_cons_ne m 1 t ts h]

theorem mem_renumber_block :
    ∀ (l : List (TerminalRec String)) (m : String) (i : Nat)
      (u : TerminalRec Nat), u ∈ renumberTerminals m i l →
      ∃ v ∈ l, u.block_name = v.block_name := by
  intro l
  induction l with
  | nil => intro m i u h; rw [renumberTerminals_nil] at h; simp at h
  | cons t ts ih =>
    intro m i u h
    by_cases he : t.block_name = m
    · rw [renumberTerminals_cons_eq m i t ts he] at h
      rcases List.mem_cons.mp h with rfl | h2
      · exact ⟨t, by simp, rfl⟩
      · rcases ih t.block_name (i + 1) u h2 with ⟨v, hv, he2⟩
        exact ⟨v, by simp [hv], he2⟩
    · rw [renumberTerminals_cons_ne m i t ts he] at h
      rcases List.mem_cons.mp h with rfl | h2
      · exact ⟨t, by simp, rfl⟩
      · rcases ih t.block_name 2 u h2 with ⟨v, hv, he2⟩
        exact ⟨v, by simp [hv], he2⟩

theorem renumber_block_pairwise (R : String → String → Prop) :
    ∀ (l : List (TerminalRec String)) (m : String) (i : Nat),
      l.Pairwise (fun a b => R a.block_name b.block_name) →
      (renumberTerminals m i l).Pairwise
        (fun a b => R a.block_name b.block_name) := by
  intro l
  induction l with
  | nil => intro m i _; rw [renumberTerminals_nil]; exact List.Pairwise.nil
  | cons t ts ih =>
    intro m i h
    rcases List.pairwise_cons.mp h with ⟨h1, h2⟩
    have hhead : ∀ u ∈ renumberTerminals t.block_name 2 ts,
        R (setPos t 1).block_name u.block_name := by
      intro u hu
      rcases mem_renumber_block ts t.block_name 2 u hu with ⟨v, hv, he⟩
      rw [setPos_block, he]
      exact h1 v hv
    have hhead2 : ∀ (j : Nat), ∀ u ∈ renumberTerminals t.block_name (i + 1) ts,
        R (setPos t j).block_name u.block_name := by
      intro j u hu
      rcases mem_renumber_block ts t.block_name (i + 1) u hu with ⟨v, hv, he⟩
      rw [setPos_block, he]
      exact h1 v hv
    by_cases he : t.block_name = m
    · rw [renumberTerminals_cons_eq m i t ts he]
      exact List.pairwise_cons.mpr ⟨hhead2 i, ih t.block_name (i + 1) h2⟩
    · rw [renumberTerminals_cons_ne m i t ts he]
      exact List.pairwise_cons.mpr ⟨hhead, ih t.block_name 2 h2⟩

theorem frontRun_of_sorted :
    ∀ (ts : List (TerminalRec String)) (t : TerminalRec String),
      List.Pairwise (fun a b => b.block_name ≤ a.block_name) (t :: ts) →
      FrontRun t.block_name ts := by
  intro ts
  induction ts with
  | nil => intro t _; exact ⟨[], [], rfl, by simp, by simp⟩
  | cons u ts ih =>
    intro t h
    by_cases he : u.block_name = t.block_name
    · have h2 : List.Pairwise (fun a b => b.block_name ≤ a.block_name) (u :: ts) :=
        (List.pairwise_cons.mp h).2
      rcases ih u h2 with ⟨p, q, e, hp, hq⟩
      refine ⟨u :: p, q, by rw [List.cons_append, ← e], ?_, ?_⟩
      · intro v hv
        rcases List.mem_cons.mp hv with rfl | hv2
        · exact he
        · rw [hp v hv2, he]
      · intro v hv
        rw [← he]
        exact hq v hv
    · refine ⟨[], u :: ts, rfl, by simp, ?_⟩
      intro v hv
      rcases List.mem_cons.mp hv with rfl | hv2
      · exact he
      · intro he2
        have h1 : ∀ w ∈ u :: ts, w.block_name ≤ t.block_name :=
          (List.pairwise_cons.mp h).1
        have h2 : ∀ w ∈ ts, w.block_name ≤ u.block_name :=
          (List.pairwise_cons.mp (List.pairwise_cons.mp h).2).1
        have hut : u.block_name ≤ t.block_name := h1 u (by simp)
        have hvu : v.block_name ≤ u.block_name := h2 v hv2
        rw [he2] at hvu
        exact he (le_antisymm hut hvu)

theorem frontRun_tail_eq {m : String} {t : TerminalRec String}
    {ts : List (TerminalRec String)} (h : FrontRun m (t :: ts))
    (he : t.block_name = m) : FrontRun m ts := by
  rcases h with ⟨p, q, e, hp, hq⟩
  cases p with
  | nil =>
    rw [List.nil_append] at e
    exact absurd he (by rw [← e] at hq; exact hq t (by simp))
  | cons v p2 =>
    rw [List.cons_append] at e
    injection e with e1 e2
    exact ⟨p2, q, e2, fun w hw => hp w (by simp [hw]), hq⟩

theorem frontRun_absent {m : String} {t : TerminalRec String}
    {ts : List (TerminalRec String)} (h : FrontRun m (t :: ts))
    (hne : t.block_name ≠ m) : ∀ u ∈ t :: ts, u.block_name ≠ m := by
  rcases h with ⟨p, q, e, hp, hq⟩
  cases p with
  | nil =>
    rw [List.nil_append] at e
    rw [e]
    exact hq
  | cons v p2 =>
    rw [List.cons_append] at e
    injection e with e1 e2
    exact absurd (by rw [e1]; exact hp v (by simp)) hne

theorem filter_block_absent (b : String) :
    ∀ (l : List (TerminalRec String)), (∀ u ∈ l, u.block_name ≠ b) →
      (l.filter (fun u => u.block_name == b)).length = 0 := by
  intro l h
  rw [List.length_eq_zero, List.filter_eq_nil]
  intro u hu
  simp [h u hu]

theorem renumber_filter_pos :
    ∀ (l : List (TerminalRec String)) (m : String) (i : Nat),
      List.Pairwise (fun a b => b.block_name ≤ a.block_name) l →
      FrontRun m l →
      ∀ b : String,
        ((renumberTerminals m i l).filter
            (fun u => u.block_name == b)).map (fun u => u.terminal_pos) =
          if b = m then
            List.range' i ((l.filter (fun u => u.block_name == b)).length)
          else
            List.range' 1 ((l.filter (fun u => u.block_name == b)).length) := by
  intro l
  induction l with
  | nil =>
    intro m i _ _ b
    rw [renumberTerminals_nil]
    by_cases hbm : b = m
    · rw [if_pos hbm]
      rfl
    · rw [if_neg hbm]
      rfl
  | cons t ts ih =>
    intro m i hs hf b
    have hs2 : List.Pairwise (fun a b => b.block_name ≤ a.block_name) ts :=
      (List.pairwise_cons.mp hs).2
    by_cases he : t.block_name = m
    · rw [renumberTerminals_cons_eq m i t ts he, he]
      have hf2 : FrontRun m ts := frontRun_tail_eq hf he
      by_cases hbm : b = m
      · have hpb : ((setPos t i).block_name == b) = true := by
          rw [setPos_block, he, hbm]
          exact beq_self_eq_true m
        have hpbS : (t.block_name == b) = true := by
          rw [he, hbm]
          exact beq_self_eq_true m
        rw [if_pos hbm, List.filter_cons, if_pos hpb, List.map_cons, setPos_pos,
          List.filter_cons, if_pos hpbS, List.length_cons, List.range'_succ,
          ih m (i + 1) hs2 hf2 b, if_pos hbm]
      · have hpb : ((setPos t i).block_name == b) = false := by
          rw [setPos_block, he]
          exact beq_eq_false_iff_ne.mpr (fun e => hbm e.symm)
        have hpbS : (t.block_name == b) = false := by
          rw [he]
          exact beq_eq_false_iff_ne.mpr (fun e => hbm e.symm)
        have hnpb : ¬(((setPos t i).block_name == b) = true) := by
          rw [hpb]
          simp
        have hnpbS : ¬((t.block_name == b) = true) := by
          rw [hpbS]
          simp
        rw [if_neg hbm, List.filter_cons, if_neg hnpb, List.filter_cons,
          if_neg hnpbS, ih m (i + 1) hs2 hf2 b, if_neg hbm]
    · rw [renumberTerminals_cons_ne m i t ts he]
      have hf2 : FrontRun t.block_name ts := frontRun_of_sorted ts t hs
      have habs : ∀ u ∈ t :: ts, u.block_name ≠ m := frontRun_absent hf he
      by_cases hbt : b = t.block_name
      · have hbm : b ≠ m := by
          rw [hbt]
          exact he
        have hpb : ((setPos t 1).block_name == b) = true := by
          rw [setPos_block, hbt]
          exact beq_self_eq_true _
        have hpbS : (t.block_name == b) = true := by
          rw [hbt]
          exact beq_self_eq_true _
        rw [if_neg hbm, List.filter_cons, if_pos hpb, List.map_cons, setPos_pos,
          List.filter_cons, if_pos hpbS, List.length_cons, List.range'_succ,
          ih t.block_name 2 hs2 hf2 b, if_pos hbt]
      · have hpb : ((setPos t 1).block_name == b) = false := by
          rw [setPos_block]
          exact beq_eq_false_iff_ne.mpr (fun e => hbt e.symm)
        have hpbS : (t.block_name == b) = false :=
          beq_eq_false_iff_ne.mpr (fun e => hbt e.symm)
        have hnpb : ¬(((setPos t 1).block_name == b) = true) := by
          rw [hpb]
          simp
        have hnpbS : ¬((t.block_name == b) = true) := by
          rw [hpbS]
          simp
        by_cases hbm : b = m
        · have h0 : ((t :: ts).filter (fun u => u.block_name == b)).length = 0 :=
            filter_block_absent b (t :: ts) (fun u hu => by
              rw [hbm]
              exact habs u hu)
          have h0t : (ts.filter (fun u => u.block_name == b)).length = 0 :=
            filter_block_absent b ts (fun u hu => by
              rw [hbm]
              exact habs u (by simp [hu]))
          rw [if_pos hbm, h0, List.filter_cons, if_neg hnpb,
            ih t.block_name 2 hs2 hf2 b, if_neg hbt, h0t]
          rfl
        · rw [if_neg hbm, List.filter_cons, if_neg hnpb, List.filter_cons,
            if_neg hnpbS, ih t.block_name 2 hs2 hf2 b, if_neg hbt]

/-- C1 as stated is false in its ordering part: line 385 sorts by block name
with `reverse=True`, so blocks come out in descending order.  With two
records of blocks `A` and `B`, the extracted list starts with the `B` record
and is therefore not sorted ascending by block name. -/
theorem claim1_counterexample :
    ¬ List.Pairwise (fun u v => u.block_name ≤ v.block_name)
      (setUsedTerminalsSortRenum
        [sampleTerminalStr "A" "1", sampleTerminalStr "B" "1"]) := by
  have hAB : ("A" : String) < "B" := by
    rw [String.lt_iff_toList_lt]
    decide
  have hnBA : ¬ (("B" : String) ≤ "A") := fun h => absurd hAB (not_lt.mpr h)
  have hsortedIn : List.Sorted
      (fun a b : TerminalRec String => a.terminal_pos ≤ b.terminal_pos)
      [sampleTerminalStr "A" "1", sampleTerminalStr "B" "1"] := by
    refine List.pairwise_cons.mpr ⟨?_, List.pairwise_singleton _ _⟩
    intro v hv
    rw [List.mem_singleton.mp hv]
    exact le_refl _
  have e1 : sortUsedTerminals [sampleTerminalStr "A" "1", sampleTerminalStr "B" "1"] =
      [sampleTerminalStr "B" "1", sampleTerminalStr "A" "1"] := by
    rw [sortUsedTerminals, hsortedIn.insertionSort_eq]
    rw [List.insertionSort, List.insertionSort, List.insertionSort,
      List.orderedInsert_nil, List.orderedInsert]
    rw [if_neg (show ¬((sampleTerminalStr "B" "1").block_name ≤
      (sampleTerminalStr "A" "1").block_name) from hnBA), List.orderedInsert_nil]
  have e2 : setUsedTerminalsSortRenum
        [sampleTerminalStr "A" "1", sampleTerminalStr "B" "1"] =
      [setPos (sampleTerminalStr "B" "1") 1, setPos (sampleTerminalStr "A" "1") 1] := by
    rw [setUsedTerminalsSortRenum, e1,
      renumberTerminals_cons_ne _ _ _ _ (by decide : ("B" : String) ≠ ""),
      renumberTerminals_cons_ne _ _ _ _ (by decide : ("A" : String) ≠ "B"),
      renumberTerminals_nil]
  rw [e2]
  intro h
  have := (List.pairwise_cons.mp h).1 (setPos (sampleTerminalStr "A" "1") 1)
    (by simp)
  exact hnBA this

/-- C1 (amended): the extracted list is sorted by block name in descending
order (line 385 uses `reverse=True`) and, within each block, by the string
order of the position key; after the renumbering pass the `terminal_pos`
values of the records of each block are exactly the consecutive integers
`1..k` in list order, `k` being the number of records of that block. -/
theorem claim1_amended (l : List (TerminalRec String)) :
    List.Pairwise (fun a b => b.block_name ≤ a.block_name)
      (setUsedTerminalsSortRenum l) ∧
    List.Pairwise (fun a b => b.block_name ≤ a.block_name ∧
        (a.block_name = b.block_name → a.terminal_pos ≤ b.terminal_pos))
      (sortUsedTerminals l) ∧
    ∀ b : String,
      ((setUsedTerminalsSortRenum l).filter (fun u => u.block_name == b)).map
          (fun u => u.terminal_pos) =
        List.range' 1 (((setUsedTerminalsSortRenum l).filter
          (fun u => u.block_name == b)).length) := by
  haveI i1 : IsTotal (TerminalRec String)
      (fun a b => b.block_name ≤ a.block_name) :=
    ⟨fun a b => le_total b.block_name a.block_name⟩
  haveI i2 : IsTrans (TerminalRec String)
      (fun a b => b.block_name ≤ a.block_name) :=
    ⟨fun a b c h1 h2 => le_trans h2 h1⟩
  haveI i3 : IsTotal (TerminalRec String)
      (fun a b => a.terminal_pos ≤ b.terminal_pos) :=
    ⟨fun a b => le_total a.terminal_pos b.terminal_pos⟩
  haveI i4 : IsTrans (TerminalRec String)
      (fun a b => a.terminal_pos ≤ b.terminal_pos) :=
    ⟨fun a b c h1 h2 => le_trans h1 h2⟩
  have hsorted : List.Pairwise (fun a b => b.block_name ≤ a.block_name)
      (sortUsedTerminals l) := by
    rw [sortUsedTerminals]
    exact List.sorted_insertionSort _ _
  have hq : List.Pairwise (fun a b =>
      a.block_name = b.block_name → a.terminal_pos ≤ b.terminal_pos)
      (sortUsedTerminals l) := by
    rw [sortUsedTerminals]
    refine pairwise_insertionSort _ _ ?_ _ ?_
    · intro x z hxz heq
      exact absurd (le_of_eq heq) hxz
    · have hin := List.sorted_insertionSort
        (fun a b : TerminalRec String => a.terminal_pos ≤ b.terminal_pos) l
      apply List.Pairwise.imp _ hin
      intro a b h heq
      exact h
  refine ⟨?_, hsorted.and hq, ?_⟩
  · rw [setUsedTerminalsSortRenum]
    exact renumber_block_pairwise (fun x y => y ≤ x) (sortUsedTerminals l) "" 1
      hsorted
  · intro b
    rw [setUsedTerminalsSortRenum]
    rcases hcase : sortUsedTerminals l with _ | ⟨t, ts⟩
    · rw [renumberTerminals_nil]
      rfl
    · have hsorted2 : List.Pairwise (fun a b => b.block_name ≤ a.block_name)
          (t :: ts) := hcase ▸ hsorted
      have hfr : FrontRun t.block_name (t :: ts) := by
        rcases frontRun_of_sorted ts t hsorted2 with ⟨p, q, e, hp, hq2⟩
        refine ⟨t :: p, q, by rw [List.cons_append, ← e], ?_, hq2⟩
        intro v hv
        rcases List.mem_cons.mp hv with rfl | hv2
        · rfl
        · exact hp v hv2
      have hG := renumber_filter_pos (t :: ts) t.block_name 1 hsorted2 hfr b
      rw [renumberTerminals_one] at hG
      rw [renumberTerminals_one]
      have hG2 : ((setPos t 1 :: renumberTerminals t.block_name 2 ts).filter
            (fun u => u.block_name == b)).map (fun u => u.terminal_pos) =
          List.range' 1
            (((t :: ts).filter (fun u => u.block_name == b)).length) := by
        by_cases hbt : b = t.block_name
        · rw [if_pos hbt] at hG
          exact hG
        · rw [if_neg hbt] at hG
          exact hG
      have hlen := congrArg List.length hG2
      rw [List.length_map, List.length_range'] at hlen
      rw [hG2, hlen]
